import Mathlib

/-!
The upload reassembly and retrieval lifecycle of phile (`src/server.js`).

A shallow embedding of the request handlers of `server.js` and theorems about them.

Modelling conventions.

* JavaScript numbers are IEEE doubles.  Every number the handlers compute is an
  integer, an infinity or NaN, so a number is a `Num`; `parseInt` and `--` round
  to the nearest double (`toDouble`), which is the identity up to `2 ^ 53`.
  `received` is a sum of payload lengths that were really delivered and is kept as
  an exact natural number (a double is exact up to `2 ^ 53` bytes).
* `fileInfo` and `pendingUploads` are plain objects (`{}`): a property read sees
  the object's own properties first and the properties inherited from
  `Object.prototype` after them (`JsLookup`).
* The event loop is a transition system: each handler is one atomic step on a
  `State`; asynchronous completions (the `finish` event of a sink, timers) are steps
  of their own that the environment fires later.  A `/data` request and the `end`
  callback of its body are one step; opening and unlinking a file take effect at once.
* `sendFileID` registers its deletion callback for the event `finish` of the read
  stream.  A read stream emits `end` and `close` when the transfer is over, never
  `finish` (that is an event of writable streams), so the callback (`readFinish`)
  is registered (`readers`) and no step of the event loop ever runs it.
* A `write` issued after `end` fails.  Its callback (`writeError`: answer 500, close the
  stream, `deleteFile`) runs before any other request is handled, so it belongs to the
  step of the request that issued the write (`dataTurn`).  The stream also emits
  `error`, for which the program has no listener, and that stops the process; the
  transition system lets the event loop go on from the state the callback leaves, so
  what is proved of every reachable state holds up to the moment the process is gone.
  A write that fails on the storage medium is not part of the model.
* The header `x-block-id` is the decimal text of a chunk index, as the upload client
  sends it, and the body of a `/data` request has the length its `content-length`
  declares.
-/

namespace Phile

/-! ## Numbers -/

/-- The JavaScript numbers that occur in the program: integers, the infinities and NaN. -/
inductive Num where
  | fin (z : Int)
  | posInf
  | negInf
  | nan
  deriving DecidableEq, Repr

/-- Number of binary digits of `n`, by halving (`fuel` bounds the number of halvings). -/
def bitLenAux : Nat → Nat → Nat
  | 0, _ => 0
  | fuel + 1, n => if n = 0 then 0 else bitLenAux fuel (n / 2) + 1

/-- Number of binary digits of `n`. -/
def bitLen (n : Nat) : Nat := bitLenAux n n

/-- Round a natural number to 53 significant bits, ties to even. -/
def round53 (n : Nat) : Nat :=
  if n < 2 ^ 53 then n
  else
    let s := bitLen n - 53
    let q := n / 2 ^ s
    let r := n % 2 ^ s
    let half := 2 ^ (s - 1)
    let m := if half < r ∨ (r = half ∧ q % 2 = 1) then q + 1 else q
    m * 2 ^ s

/-- The Number value of a mathematical integer: nearest double, ties to even,
overflowing to an infinity from `2 ^ 1024` (a value of more than 1024 bits). -/
def toDouble (z : Int) : Num :=
  let v := round53 z.natAbs
  if 1024 < bitLen v then (if z < 0 then Num.negInf else Num.posInf)
  else Num.fin (if z < 0 then -(v : Int) else (v : Int))

namespace Num

/-- JavaScript `isNaN`. -/
def isNaN : Num → Bool
  | nan => true
  | _ => false

/-- JavaScript `a < b` on numbers (false as soon as one side is NaN). -/
def lt : Num → Num → Bool
  | fin a, fin b => decide (a < b)
  | fin _, posInf => true
  | negInf, fin _ => true
  | negInf, posInf => true
  | _, _ => false

/-- JavaScript `a > b`. -/
def gt (a b : Num) : Bool := lt b a

/-- JavaScript `a >= b` on numbers (false as soon as one side is NaN). -/
def ge : Num → Num → Bool
  | nan, _ => false
  | _, nan => false
  | a, b => !(lt a b)

/-- JavaScript `--x`: the new value of `x`. -/
def dec : Num → Num
  | fin z => toDouble (z - 1)
  | x => x

end Num

/-! ## `parseInt` -/

/-- The characters `parseInt` skips at the start of its input
(ECMAScript `StrWhiteSpaceChar`: white space and line terminators). -/
def isStrWhiteSpace (c : Char) : Bool :=
  c.toNat ∈ [0x9, 0xA, 0xB, 0xC, 0xD, 0x20, 0xA0, 0x1680, 0x2000, 0x2001, 0x2002,
    0x2003, 0x2004, 0x2005, 0x2006, 0x2007, 0x2008, 0x2009, 0x200A, 0x2028, 0x2029,
    0x202F, 0x205F, 0x3000, 0xFEFF]

/-- Value of `c` as a digit in the given radix, if it is one. -/
def digitVal (radix : Nat) (c : Char) : Option Nat :=
  let v :=
    if '0'.toNat ≤ c.toNat ∧ c.toNat ≤ '9'.toNat then c.toNat - '0'.toNat
    else if 'a'.toNat ≤ c.toNat ∧ c.toNat ≤ 'z'.toNat then c.toNat - 'a'.toNat + 10
    else if 'A'.toNat ≤ c.toNat ∧ c.toNat ≤ 'Z'.toNat then c.toNat - 'A'.toNat + 10
    else radix
  if v < radix then some v else none

/-- The digits of the longest prefix of the input that consists of radix digits. -/
def leadingDigits (radix : Nat) : List Char → List Nat
  | [] => []
  | c :: cs =>
    match digitVal radix c with
    | some d => d :: leadingDigits radix cs
    | none => []

/-- The integer written by a list of digits, most significant first. -/
def mathInt (radix : Nat) (ds : List Nat) : Nat :=
  ds.foldl (fun acc d => acc * radix + d) 0

/-- Strip one leading sign; the flag says whether it was `-`. -/
def stripSign : List Char → Bool × List Char
  | [] => (false, [])
  | c :: cs =>
    if c = '-' then (true, cs)
    else if c = '+' then (false, cs)
    else (false, c :: cs)

/-- Strip a leading `0x` or `0X`; the first component is the radix to use. -/
def stripHexMarker : List Char → Nat × List Char
  | c0 :: c1 :: cs =>
    if c0 = '0' ∧ (c1 = 'x' ∨ c1 = 'X') then (16, cs) else (10, c0 :: c1 :: cs)
  | cs => (10, cs)

/-- The call `parseInt(s)` for a string `s`, radix argument absent. -/
def parseIntStr (s : String) : Num :=
  let trimmed := s.toList.dropWhile isStrWhiteSpace
  let signed := stripSign trimmed
  let based := stripHexMarker signed.2
  let ds := leadingDigits based.1 based.2
  if ds = [] then Num.nan
  else
    let n : Int := mathInt based.1 ds
    toDouble (if signed.1 then -n else n)

/-- The call `parseInt(x)` for a header value: a string, or `undefined` when the header is
absent (`parseInt` first converts its argument to a string). -/
def parseInt : Option String → Num
  | some s => parseIntStr s
  | none => parseIntStr "undefined"

/-- The first character `parseInt` would read as a digit: what follows the leading
white space and sign. -/
def leadingChar (s : String) : Option Char :=
  (stripSign (s.toList.dropWhile isStrWhiteSpace)).2.head?

/-- One of the characters `0` to `9`. -/
def isDecimalDigit (c : Char) : Bool := decide ('0'.toNat ≤ c.toNat ∧ c.toNat ≤ '9'.toNat)

/-- The function `parseDCount(numString)` of `server.js`. -/
def parseDCount (numString : Option String) : Num :=
  let n := Num.fin 1
  if numString ≠ some "" then
    let parsed := parseInt numString
    if !parsed.isNaN && parsed.gt (Num.fin 0) then parsed else n
  else n

/-! ## Identifiers -/

/-- The constant `ID_LENGTH`: number of characters of an id. -/
def ID_LENGTH : Nat := 8

/-- One value returned by `Math.random()`: the double `m / 2 ^ e`. -/
structure Draw where
  m : Nat
  e : Nat

/-- A draw is a double in `[0, 1)`: a significand of at most 53 bits and a value below 1. -/
def Draw.valid (d : Draw) : Prop := d.m < 2 ^ 53 ∧ d.m < 2 ^ d.e

instance (d : Draw) : Decidable d.valid := by
  unfold Draw.valid
  infer_instance

/-- The value `Math.floor(r * 26)` in double arithmetic: the product is rounded to 53 bits. -/
def Draw.floor26 (d : Draw) : Nat := round53 (d.m * 26) / 2 ^ d.e

/-- The test `r < 0.5`. -/
def Draw.belowHalf (d : Draw) : Bool := decide (2 * d.m < 2 ^ d.e)

/-- The `for` loop of `generateID`: `k` iterations left, `pos` is the number of
draws consumed so far from the random source, `id` the string built so far. -/
def generateIDLoop (rand : Nat → Draw) : Nat → Nat → String → String × Nat
  | 0, pos, id => (id, pos)
  | k + 1, pos, id =>
    let charCode := 0x41 + (rand pos).floor26
    let charCode := if (rand (pos + 1)).belowHalf then charCode + 32 else charCode
    generateIDLoop rand k (pos + 2) (id.push (Char.ofNat charCode))

/-- The function `generateID()`: the id and the position reached in the random source. -/
def generateID (rand : Nat → Draw) (pos : Nat) : String × Nat :=
  generateIDLoop rand ID_LENGTH pos ""

/-! ## Objects used as maps -/

/-- Result of reading a property of a plain object. -/
inductive JsLookup (α : Type) where
  | own (v : α)
  | inherited
  | undefined
  deriving DecidableEq, Repr

/-- The property names every plain object inherits from `Object.prototype`. -/
def objectPrototypeKeys : List String :=
  ["constructor", "__defineGetter__", "__defineSetter__", "hasOwnProperty",
   "__lookupGetter__", "__lookupSetter__", "isPrototypeOf", "propertyIsEnumerable",
   "toString", "valueOf", "__proto__", "toLocaleString"]

/-- The read `o[k]` on a plain object whose own properties are `o`. -/
def jsGet {α : Type} (o : String → Option α) (k : String) : JsLookup α :=
  match o k with
  | some v => JsLookup.own v
  | none => if k ∈ objectPrototypeKeys then JsLookup.inherited else JsLookup.undefined

/-- The do-while loop of `generateUniqueID()`; `none` when it has not left the loop
after `fuel` candidates. -/
def generateUniqueID {α : Type} (fileInfo : String → Option α) (rand : Nat → Draw) :
    Nat → Nat → Option (String × Nat)
  | 0, _ => none
  | fuel + 1, pos =>
    let g := generateID rand pos
    match jsGet fileInfo g.1 with
    | JsLookup.undefined => some g
    | _ => generateUniqueID fileInfo rand fuel g.2

/-! ## State -/

/-- Payload bytes. -/
abbrev Bytes := List UInt8

/-- An entry of `fileInfo`. -/
structure FileRecord where
  filename : Option String
  dCount : Num
  deriving DecidableEq, Repr

/-- The write stream of a session: the chunks accepted by `write`, whether `end`
was called, and the chunks passed to `write` after `end`: these writes fail, and the
callback passed to `write` is then called with an error (`writeError`). -/
structure WriteStream where
  writes : List Bytes
  ended : Bool
  refused : List Bytes
  deriving DecidableEq, Repr

/-- An entry of `pendingUploads`; `chunks` is a JavaScript array with holes. -/
structure Pending where
  id : String
  size : Num
  writeStream : WriteStream
  received : Nat
  chunks : List (Option Bytes)
  nextChunk : Nat
  deriving DecidableEq, Repr

/-- The state of the server process.  `files` says which names exist in `./files`;
`readers` are the `finish` listeners that `sendFileID` has registered on read streams,
`closing` the sinks that were ended and have not emitted `finish` yet,
`timers` the armed auto-delete timers. -/
structure State where
  fileInfo : String → Option FileRecord
  pendingUploads : String → Option Pending
  files : String → Bool
  readers : List String
  closing : List String
  timers : List String

/-- The state at start-up. -/
def State.init : State :=
  { fileInfo := fun _ => none, pendingUploads := fun _ => none, files := fun _ => false,
    readers := [], closing := [], timers := [] }

/-! ## Retrieval -/

/-- What a GET request is answered with. -/
inductive Response where
  | page (path : String)
  | served (id : String)
  | notFound
  | threw
  deriving DecidableEq, Repr

/-- The function `deleteFile(id)`: the new state and the `fs.unlink` calls issued. -/
def deleteFile (s : State) (id : String) : State × List String :=
  match jsGet s.fileInfo id with
  | JsLookup.undefined => (s, [])
  | _ =>
    ({ s with
        files := Function.update s.files id false
        fileInfo := Function.update s.fileInfo id none
        pendingUploads := Function.update s.pendingUploads id none },
     ["./files/" ++ id])

/-- The function `sendFileID(res, id)`: `fs.statSync` throws when the stored object is missing;
otherwise the file is streamed and a callback is registered for the event `finish` of
the read stream. -/
def sendFileID (s : State) (id : String) : State × Response :=
  match jsGet s.fileInfo id with
  | JsLookup.undefined => (s, Response.notFound)
  | _ =>
    if s.files id then ({ s with readers := id :: s.readers }, Response.served id)
    else (s, Response.threw)

/-- The statement `--fileInfo[id].dCount` (on an inherited object the write lands on
that object, not on `fileInfo`). -/
def decrement (s : State) (id : String) : State :=
  match s.fileInfo id with
  | some r => { s with fileInfo := Function.update s.fileInfo id (some { r with dCount := r.dCount.dec }) }
  | none => s

/-- The replacement `url.replace(/\/\.\./g, "")`: every `/..` is removed. -/
def stripParent : List Char → List Char
  | '/' :: '.' :: '.' :: cs => stripParent cs
  | c :: cs => c :: stripParent cs
  | [] => []

/-- The string `url.substr(1)`. -/
def substr1 (url : String) : String := String.mk (url.data.drop 1)

/-- The function `handleGET(req, res)` for `req.url = url`. -/
def handleGET (s : State) (url : String) : State × Response :=
  if url = "/" then (s, Response.page "site/index.html")
  else if '.' ∈ url.data then
    (s, Response.page ("site/" ++ substr1 (String.mk (stripParent url.data))))
  else
    let id := substr1 url
    match jsGet s.fileInfo id with
    | JsLookup.undefined => (s, Response.notFound)
    | _ =>
      let sent := sendFileID s id
      if sent.2 = Response.threw then sent else (decrement sent.1 id, sent.2)

/-- The body of the callback that `sendFileID` registers for `finish` on the read stream
(`none` when reading `fileInfo[id].dCount` throws because `fileInfo[id]` is undefined).
A read stream never emits `finish`, so no step of the event loop runs this body. -/
def readFinish (s : State) (id : String) : Option (State × List String) :=
  match jsGet s.fileInfo id with
  | JsLookup.undefined => none
  | JsLookup.inherited => some (s, [])
  | JsLookup.own r => if r.dCount = Num.fin 0 then some (deleteFile s id) else some (s, [])

/-! ## Upload -/

/-- The assignment `chunks[k] = data` on an array with holes. -/
def setChunk (chunks : List (Option Bytes)) (k : Nat) (data : Bytes) : List (Option Bytes) :=
  if k < chunks.length then chunks.set k (some data)
  else chunks ++ List.replicate (k - chunks.length) none ++ [some data]

/-- The read `chunks[k]`: `none` for a hole or an index past the end. -/
def getChunk (chunks : List (Option Bytes)) (k : Nat) : Option Bytes :=
  (chunks.get? k).join

/-- The call `writeStream.write(c)`: once `end` has been called the write fails and is
recorded in `refused`; the callback of a failed write is run by `dataTurn`. -/
def WriteStream.write (w : WriteStream) (c : Bytes) : WriteStream :=
  if w.ended then { w with refused := w.refused ++ [c] }
  else { w with writes := w.writes ++ [c] }

/-- The `while (c)` loop of the `/data` handler, at most `fuel` iterations.  The
callback passed to `write` does nothing when the write succeeds; the writes that fail
are those recorded in `refused`, and `dataTurn` runs their callback. -/
def drainLoop : Nat → Pending → Pending
  | 0, p => p
  | fuel + 1, p =>
    match getChunk p.chunks p.nextChunk with
    | some c =>
      drainLoop fuel { p with writeStream := p.writeStream.write c, nextChunk := p.nextChunk + 1 }
    | none => p

/-- The `while (c)` loop: every iteration consumes one array index, so the length of
the array bounds the number of iterations (`drain_exit`). -/
def drain (p : Pending) : Pending := drainLoop p.chunks.length p

/-- The `end` callback of a `/data` request on session `p`: the session afterwards,
and whether `writeStream.end()` was called. -/
def onEnd (p : Pending) (blockID : Nat) (data : Bytes) : Pending × Bool :=
  let p := { p with received := p.received + data.length }
  let p := { p with chunks := setChunk p.chunks blockID data }
  let p := drain p
  if (Num.fin p.received).ge p.size then
    ({ p with writeStream := { p.writeStream with ended := true } }, true)
  else (p, false)

/-- What a POST request is answered with.  `created id` is the 200 answer of `/new`
with `X-File-ID`, `failure` a 500, `accepted` the plain 200 of `/data`, `completing`
means the answer is left to the sink's `finish` callback, `ignored` that the
request is only logged and never answered, `writeFailed` that a write of the request
failed: its callback answers 500 and deletes the upload (and the `error` event of the
stream, which nothing listens to, stops the process). -/
inductive PostResponse where
  | created (id : String)
  | failure
  | accepted
  | completing
  | ignored
  | writeFailed
  | threw
  deriving DecidableEq, Repr

/-- The `/data` branch of `handlePOST` together with the `end` callback of the
request body, up to the return of that callback.  `blockID` is the chunk index written
in `x-block-id`; `payload` is the request body, `none` when `content-length` does not
parse. -/
def handleData (s : State) (id : String) (blockID : Nat) (payload : Option Bytes) :
    State × PostResponse :=
  match jsGet s.pendingUploads id with
  | JsLookup.undefined => (s, PostResponse.ignored)
  | JsLookup.inherited =>
    match payload with
    | none => (s, PostResponse.failure)
    | some _ => (s, PostResponse.threw)
  | JsLookup.own p =>
    match payload with
    | none => (s, PostResponse.failure)
    | some data =>
      let r := onEnd p blockID data
      let s1 := { s with pendingUploads := Function.update s.pendingUploads id (some r.1) }
      if r.2 then
        ({ s1 with closing := if p.writeStream.ended then s1.closing else p.id :: s1.closing },
          PostResponse.completing)
      else (s1, PostResponse.accepted)

/-- The number of writes that the `end` callback of a request issues after `end` was
called on the sink: the writes of the request that fail. -/
def failedWrites (p : Pending) (blockID : Nat) (data : Bytes) : Nat :=
  (onEnd p blockID data).1.writeStream.refused.length - p.writeStream.refused.length

/-- The callback passed to `writeStream.write`, called with an error: the request is
answered 500, the stream closed and `deleteFile(id)` called; `id` is the `x-file-id` of
the request.  The result is the new state and the `fs.unlink` calls issued. -/
def writeError (s : State) (id : String) : State × List String :=
  deleteFile s id

/-- A `/data` request as one turn of the event loop: the handler and the `end` callback
of the body (`handleData`) and then, when a write of the request failed, the error
callback of that write, which runs before any other request is handled. -/
def dataTurn (s : State) (id : String) (blockID : Nat) (payload : Option Bytes) :
    State × PostResponse :=
  let r := handleData s id blockID payload
  match jsGet s.pendingUploads id, payload with
  | JsLookup.own p, some data =>
    if 0 < failedWrites p blockID data then ((writeError r.1 id).1, PostResponse.writeFailed)
    else r
  | _, _ => r

/-- The `/new` branch of `handlePOST`; `none` when `generateUniqueID` has not returned
after `fuel` candidates. -/
def handleNew (s : State) (xFilesize xFilename xDcount : Option String)
    (rand : Nat → Draw) (fuel : Nat) : Option (State × PostResponse) :=
  let size := parseInt xFilesize
  if !size.isNaN then
    match generateUniqueID s.fileInfo rand fuel 0 with
    | none => none
    | some g =>
      let id := g.1
      some ({ s with
          files := Function.update s.files id true
          pendingUploads := Function.update s.pendingUploads id
            (some { id := id, size := size,
                    writeStream := { writes := [], ended := false, refused := [] },
                    received := 0, chunks := [], nextChunk := 0 })
          fileInfo := Function.update s.fileInfo id
            (some { filename := xFilename, dCount := parseDCount xDcount }) },
        PostResponse.created id)
  else some (s, PostResponse.failure)

/-- The `finish` callback of a session's write stream: the upload is answered,
the auto-delete timer is armed and the session is removed. -/
def sinkFinish (s : State) (id : String) : State :=
  { s with
      timers := id :: s.timers
      pendingUploads := Function.update s.pendingUploads id none }

/-! ## The event loop -/

/-- One turn of the event loop. -/
inductive Event where
  | create (xFilesize xFilename xDcount : Option String) (rand : Nat → Draw) (fuel : Nat)
  | data (id : String) (blockID : Nat) (payload : Option Bytes)
  | get (url : String)
  | sinkFinish (id : String)
  | timer (id : String)

/-- The state after one turn; `none` when the turn cannot happen (no such callback
is outstanding, or `generateUniqueID` does not return) or ends in an uncaught
exception, which stops the process.  There is no turn for the `finish` listeners of
read streams: they are never called. -/
def step (s : State) : Event → Option State
  | Event.create xFilesize xFilename xDcount rand fuel =>
    (handleNew s xFilesize xFilename xDcount rand fuel).map Prod.fst
  | Event.data id blockID payload =>
    let r := dataTurn s id blockID payload
    if r.2 = PostResponse.threw then none else some r.1
  | Event.get url =>
    let r := handleGET s url
    if r.2 = Response.threw then none else some r.1
  | Event.sinkFinish id =>
    if id ∈ s.closing then some (sinkFinish { s with closing := s.closing.erase id } id)
    else none
  | Event.timer id =>
    if id ∈ s.timers then some (deleteFile { s with timers := s.timers.erase id } id).1
    else none

/-- The states the server can be in. -/
inductive Reachable : State → Prop where
  | init : Reachable State.init
  | step {s s1 : State} (e : Event) : Reachable s → step s e = some s1 → Reachable s1

/-- Run a list of events from a state. -/
def run (s : State) : List Event → Option State
  | [] => some s
  | e :: es => (step s e).bind (fun s1 => run s1 es)

/-! ## Notions used in the statements -/

/-- One of the 52 ASCII letters. -/
def isLetter (c : Char) : Bool :=
  decide (('A'.toNat ≤ c.toNat ∧ c.toNat ≤ 'Z'.toNat) ∨ ('a'.toNat ≤ c.toNat ∧ c.toNat ≤ 'z'.toNat))

/-- A random source under which `generateID` writes the letter with the given character
code at every position: the draws at even positions select the letter (a multiple of
`1 / 1024` inside the letter's interval), the draws at odd positions the case. -/
def letterDraws (code : Nat) (pos : Nat) : Draw :=
  if pos % 2 = 0 then ⟨min ((code - 65) % 32) 25 * 1024 / 26 + 1, 10⟩
  else if 97 ≤ code then ⟨0, 1⟩ else ⟨1, 1⟩

/-- One retrieval of `id` carried to its end: the GET request whose transfer completes
before anything else happens.  The read stream then emits `end` and `close`, for which
nothing is registered, so the turn of the request is all there is.  `none` when the
request ends in an exception. -/
def retrieve (s : State) (id : String) : Option (State × Response) :=
  let r := handleGET s ("/" ++ id)
  if r.2 = Response.threw then none else some r

/-- The answers to `n` retrievals of `id` performed one after another. -/
def retrievals : Nat → State → String → Option (List Response)
  | 0, _, _ => some []
  | n + 1, s, id =>
    (retrieve s id).bind (fun r => (retrievals n r.1 id).map (fun rs => r.2 :: rs))

/-- A state in which one file is registered under `id` with the given download counter
and its stored object exists; nothing else is going on. -/
def registered (id : String) (dCount : Num) : State :=
  { State.init with
      fileInfo := Function.update State.init.fileInfo id
        (some { filename := some "f.txt", dCount := dCount })
      files := Function.update State.init.files id true }

/-- A random source that always returns 0: the id it produces is `aaaaaaaa`. -/
def zeros : Nat → Draw := fun _ => ⟨0, 1⟩

/-- The bytes of an ASCII string. -/
def ascii (s : String) : Bytes := s.data.map (fun c => UInt8.ofNat c.toNat)

/-- The start of a life cycle: a session is created with declared size 1 and allowance
`"1"` (its id is `aaaaaaaa`), its single one-byte chunk is submitted and the sink
finishes. -/
def uploadedTrace : List Event :=
  [Event.create (some "1") (some "f.txt") (some "1") zeros 1,
   Event.data "aaaaaaaa" 0 (some (ascii "a")),
   Event.sinkFinish "aaaaaaaa"]

/-- The upload of `uploadedTrace` followed by a first retrieval request. -/
def oneDownloadTrace : List Event := uploadedTrace ++ [Event.get "/aaaaaaaa"]

/-- The state at the end of `oneDownloadTrace`. -/
def afterOneDownload : State := (run State.init oneDownloadTrace).getD State.init

/-- A series of `/data` requests for one session `id`, each with its chunk index and
payload, handled one after another: the final state and the answers. -/
def submitAll (s : State) (id : String) : List (Nat × Bytes) → State × List PostResponse
  | [] => (s, [])
  | sub :: rest =>
    let r := dataTurn s id sub.1 (some sub.2)
    let t := submitAll r.1 id rest
    (t.1, r.2 :: t.2)

/-- The `end` callbacks of a series of chunk submissions applied to one session object:
the session afterwards and, per submission, whether `writeStream.end()` was called. -/
def submitChunks (p : Pending) : List (Nat × Bytes) → Pending × List Bool
  | [] => (p, [])
  | sub :: rest =>
    let r := onEnd p sub.1 sub.2
    let t := submitChunks r.1 rest
    (t.1, r.2 :: t.2)

/-- No write fails while the submissions `subs` reach the session object `p` one after
another. -/
def Quiet : Pending → List (Nat × Bytes) → Prop
  | _, [] => True
  | p, sub :: rest => failedWrites p sub.1 sub.2 = 0 ∧ Quiet (onEnd p sub.1 sub.2).1 rest

/-- The session object `/new` stores for a declared size. -/
def newSession (id : String) (size : Num) : Pending :=
  { id := id, size := size, writeStream := { writes := [], ended := false, refused := [] },
    received := 0, chunks := [], nextChunk := 0 }

/-- The reassembly invariant while the chunks `cs` of an upload arrive, `done` being the
indices submitted so far: the array holds exactly the submitted chunks, every index
below `nextChunk` was submitted and `nextChunk` was not, the sink received the chunks
below `nextChunk` in order and is still open, and `received` counts the submitted bytes. -/
structure Reassembling (cs : List Bytes) (done : List Nat) (p : Pending) : Prop where
  chunksOk : ∀ j, getChunk p.chunks j = if j ∈ done then cs.get? j else none
  below : ∀ j, j < p.nextChunk → j ∈ done
  next : p.nextChunk ∉ done
  sink : p.writeStream = { writes := cs.take p.nextChunk, ended := false, refused := [] }
  received : p.received = (done.map (fun k => (cs.getD k []).length)).sum
  size : p.size = Num.fin ((cs.flatten.length : Nat) : Int)

/-- The state after `POST /new` on the start-up state with the given declared size,
allowance `"2"` and the random source `zeros`: one session, under the id `aaaaaaaa`. -/
def opened (xFilesize : String) : State :=
  ((handleNew State.init (some xFilesize) (some "f.txt") (some "2") zeros 1).map Prod.fst).getD
    State.init

/-- The registry/session consistency property: every id that has an upload session has a
FileRecord. -/
def SessionsRegistered (s : State) : Prop :=
  ∀ k, s.pendingUploads k ≠ none → s.fileInfo k ≠ none

/-- The start of a life cycle with allowance `"2"`: a session is created with declared
size 1 (its id is `aaaaaaaa`), its one-byte chunk is submitted and the sink finishes. -/
def uploadedTwiceTrace : List Event :=
  [Event.create (some "1") (some "f.txt") (some "2") zeros 1,
   Event.data "aaaaaaaa" 0 (some (ascii "a")),
   Event.sinkFinish "aaaaaaaa"]

/-- Turns that follow `oneDownloadTrace` and have nothing to do with the file uploaded
there: a request for another name and the creation of another upload. -/
def otherTurns : List Event :=
  [Event.get "/bbbbbbbb", Event.create (some "1") (some "g.txt") (some "1") (letterDraws 98) 1]

/-- The state at the end of `oneDownloadTrace` followed by `otherTurns`. -/
def afterOtherTurns : State := (run afterOneDownload otherTurns).getD State.init

/-- The state after the upload of `uploadedTwiceTrace` and two retrieval requests, the
second handled during the transfer of the first. -/
def afterTwoRequests : State :=
  (run State.init (uploadedTwiceTrace ++ [Event.get "/aaaaaaaa", Event.get "/aaaaaaaa"])).getD
    State.init

/-- The state `afterTwoRequests` once the auto-delete timer of the file has fired. -/
def afterTimer : State := (run afterTwoRequests [Event.timer "aaaaaaaa"]).getD State.init

/-- The `write` calls issued to a sink, in the order they were made: those made before
`end`, which were accepted, followed by those made after `end`, which were refused. -/
def WriteStream.issued (w : WriteStream) : List Bytes := w.writes ++ w.refused

/-- What holds of a session between two chunk submissions: one `write` call was issued
per index below `nextChunk`, no write was refused while the sink was open, the array
still holds an entry at every index below `nextChunk`, and none at `nextChunk`. -/
structure SessionOk (p : Pending) : Prop where
  count : p.writeStream.issued.length = p.nextChunk
  whileOpen : p.writeStream.ended = false → p.writeStream.refused = []
  kept : ∀ j, j < p.nextChunk → getChunk p.chunks j ≠ none
  gap : getChunk p.chunks p.nextChunk = none

/-- The invariant that ties a session to the submissions `done` it has received: it is
`SessionOk`, every chunk the array holds was submitted at that index, the write issued
for each index below `nextChunk` carries a payload submitted at that index, and every
submitted index still holds a chunk. -/
structure Tracked (done : List (Nat × Bytes)) (p : Pending) : Prop where
  ok : SessionOk p
  buffered : ∀ j c, getChunk p.chunks j = some c → (j, c) ∈ done
  written : ∀ j, j < p.nextChunk → ∃ c, p.writeStream.issued[j]? = some c ∧ (j, c) ∈ done
  present : ∀ sub ∈ done, getChunk p.chunks sub.1 ≠ none

/-- The last payload `b` submitted at index `k` before `k` was flushed is the one that
counts: while `k` is not flushed the buffer holds `b` at `k`, and once it is flushed
the write issued for index `k` carries `b`. -/
structure LastWins (k : Nat) (b : Bytes) (p : Pending) : Prop where
  ok : SessionOk p
  waiting : p.nextChunk ≤ k → getChunk p.chunks k = some b
  flushed : k < p.nextChunk → p.writeStream.issued[k]? = some b

/-- Two sessions that issued the same writes, wait for the same index and hold the same
chunks from that index on. -/
structure SameSink (p q : Pending) : Prop where
  left : SessionOk p
  right : SessionOk q
  next : p.nextChunk = q.nextChunk
  issued : p.writeStream.issued = q.writeStream.issued
  agree : ∀ j, p.nextChunk ≤ j → getChunk p.chunks j = getChunk q.chunks j

/-- Two sessions that issued the same writes, the first of which has counted at least as
many bytes and was ended if the second was. -/
structure Ahead (p q : Pending) : Prop where
  same : SameSink p q
  size : p.size = q.size
  received : q.received ≤ p.received
  ended : q.writeStream.ended = true → p.writeStream.ended = true

/-! # Theorems -/

/-! ## Download allowance -/

theorem bitLenAux_le (fuel : Nat) : ∀ n k : Nat, n < 2 ^ k → bitLenAux fuel n ≤ k := by
  induction fuel with
  | zero => intro n k _; simp [bitLenAux]
  | succ f ih =>
    intro n k h
    unfold bitLenAux
    split
    · exact Nat.zero_le _
    · rename_i hn
      cases k with
      | zero => simp at h; omega
      | succ k =>
        have : n / 2 < 2 ^ k := by
          rw [Nat.div_lt_iff_lt_mul (by norm_num)]
          rw [pow_succ] at h; exact h
        have := ih (n / 2) k this
        omega

theorem bitLenAux_zero (fuel : Nat) : bitLenAux fuel 0 = 0 := by
  cases fuel <;> simp [bitLenAux]

/-- The halving loop of `bitLen` has fuel enough: `bitLen n` is the number of binary
digits of `n`. -/
theorem bitLenAux_spec (fuel : Nat) : ∀ n : Nat, n ≤ fuel →
    n < 2 ^ bitLenAux fuel n ∧ (n ≠ 0 → 2 ^ (bitLenAux fuel n - 1) ≤ n) := by
  induction fuel with
  | zero =>
    intro n h
    have : n = 0 := by omega
    subst this
    simp [bitLenAux]
  | succ f ih =>
    intro n h
    unfold bitLenAux
    split
    · rename_i h0
      subst h0
      simp
    · rename_i h0
      obtain ⟨h1, h2⟩ := ih (n / 2) (by omega)
      refine ⟨by rw [pow_succ]; omega, fun _ => ?_⟩
      rw [Nat.add_sub_cancel]
      by_cases hz : n / 2 = 0
      · rw [hz, bitLenAux_zero]
        simp
        omega
      · have h3 := h2 hz
        have hb : bitLenAux f (n / 2) ≠ 0 := by
          intro hb
          rw [hb] at h1
          simp at h1
          exact hz h1
        obtain ⟨b, hb1⟩ : ∃ b, bitLenAux f (n / 2) = b + 1 := ⟨_, (Nat.succ_pred hb).symm⟩
        rw [hb1] at h3 ⊢
        rw [Nat.add_sub_cancel] at h3
        rw [pow_succ]
        omega

theorem bitLen_spec (n : Nat) : n < 2 ^ bitLen n ∧ (n ≠ 0 → 2 ^ (bitLen n - 1) ≤ n) :=
  bitLenAux_spec n n (le_refl n)

theorem toDouble_of_lt (n : Nat) (h : n < 2 ^ 53) : toDouble (n : Int) = Num.fin n := by
  have hb : bitLen n ≤ 53 := bitLenAux_le n n 53 h
  have hr : round53 n = n := by unfold round53; exact if_pos h
  unfold toDouble
  simp only [Int.natAbs_ofNat, hr]
  rw [if_neg (by omega), if_neg (by omega)]

theorem toDouble_two_pow : toDouble ((2 : Int) ^ 53) = Num.fin (2 ^ 53) := by decide

/-- What the parser sees of a decimal digit character. -/
theorem digitChar_facts (k : Nat) (h : k < 10) :
    isStrWhiteSpace (Nat.digitChar k) = false ∧ Nat.digitChar k ≠ '-' ∧
    Nat.digitChar k ≠ '+' ∧ Nat.digitChar k ≠ 'x' ∧ Nat.digitChar k ≠ 'X' ∧
    digitVal 10 (Nat.digitChar k) = some k := by
  interval_cases k <;> decide

theorem leadingDigits_map_digitChar (ks : List Nat) (h : ∀ k ∈ ks, k < 10) :
    leadingDigits 10 (ks.map Nat.digitChar) = ks := by
  induction ks with
  | nil => rfl
  | cons k ks ih =>
    have hk := (digitChar_facts k (h k (List.mem_cons_self _ _))).2.2.2.2.2
    simp only [List.map_cons, leadingDigits, hk]
    rw [ih (fun x hx => h x (List.mem_cons_of_mem _ hx))]

theorem stripHexMarker_digits (ks : List Nat) (h : ∀ k ∈ ks, k < 10) :
    stripHexMarker (ks.map Nat.digitChar) = (10, ks.map Nat.digitChar) := by
  match ks, h with
  | [], _ => rfl
  | [_], _ => rfl
  | k0 :: k1 :: ks, h =>
    have h1 := digitChar_facts k1 (h k1 (by simp))
    simp only [List.map_cons, stripHexMarker]
    rw [if_neg]
    rintro ⟨_, hx | hx⟩
    · exact h1.2.2.2.1 hx
    · exact h1.2.2.2.2.1 hx

/-- The stages of `parseIntStr`, one hypothesis each. -/
theorem parseIntStr_stages (s : String) (cs cs1 cs2 : List Char) (neg : Bool) (radix : Nat)
    (ds : List Nat) (h1 : s.toList.dropWhile isStrWhiteSpace = cs)
    (h2 : stripSign cs = (neg, cs1)) (h3 : stripHexMarker cs1 = (radix, cs2))
    (h4 : leadingDigits radix cs2 = ds) :
    parseIntStr s = if ds = [] then Num.nan
      else toDouble (if neg then -(mathInt radix ds : Int) else (mathInt radix ds : Int)) := by
  simp only [parseIntStr, h1, h2, h3, h4]

/-- Parsing a non-empty string of decimal digits, with or without a minus sign in front. -/
theorem parseIntStr_digits (ks : List Nat) (hne : ks ≠ []) (h : ∀ k ∈ ks, k < 10)
    (neg : Bool) :
    parseIntStr (String.mk ((if neg then ['-'] else []) ++ ks.map Nat.digitChar)) =
      toDouble (if neg then -(mathInt 10 ks : Int) else (mathInt 10 ks : Int)) := by
  obtain ⟨k, ks1, rfl⟩ := List.exists_cons_of_ne_nil hne
  have hk := digitChar_facts k (h k (List.mem_cons_self _ _))
  have hld := leadingDigits_map_digitChar (k :: ks1) h
  have hhex := stripHexMarker_digits (k :: ks1) h
  cases neg with
  | true =>
    rw [parseIntStr_stages _ ('-' :: (k :: ks1).map Nat.digitChar) _ _ true 10 _ ?_ ?_ hhex hld]
    · simp
    · show List.dropWhile isStrWhiteSpace ('-' :: (k :: ks1).map Nat.digitChar) = _
      rw [List.dropWhile_cons_of_neg (by decide)]
    · simp [stripSign]
  | false =>
    rw [parseIntStr_stages _ ((k :: ks1).map Nat.digitChar) _ _ false 10 _ ?_ ?_ hhex hld]
    · simp
    · show List.dropWhile isStrWhiteSpace ((k :: ks1).map Nat.digitChar) = _
      rw [List.map_cons, List.dropWhile_cons_of_neg (by simp [hk.1])]
    · simp only [List.map_cons, stripSign]
      rw [if_neg hk.2.1, if_neg hk.2.2.1]

theorem toDigitsCore_eq (fuel : Nat) : ∀ (n : Nat) (ds : List Char), 0 < n → n < fuel →
    Nat.toDigitsCore 10 fuel n ds = (Nat.digits 10 n).reverse.map Nat.digitChar ++ ds := by
  induction fuel with
  | zero => intro n ds _ h; omega
  | succ f ih =>
    intro n ds hn hf
    have hd : Nat.digits 10 n = n % 10 :: Nat.digits 10 (n / 10) :=
      Nat.digits_def' (by norm_num) hn
    unfold Nat.toDigitsCore
    by_cases h0 : n / 10 = 0
    · simp [h0, hd]
    · simp only [h0, if_false]
      rw [ih (n / 10) _ (Nat.pos_of_ne_zero h0) (by omega), hd]
      simp

theorem repr_data (n : Nat) (h : 0 < n) :
    (Nat.repr n).data = (Nat.digits 10 n).reverse.map Nat.digitChar := by
  simp [Nat.repr, Nat.toDigits, List.asString, toDigitsCore_eq (n + 1) n [] h (by omega)]

theorem mathInt_digits (n : Nat) : mathInt 10 (Nat.digits 10 n).reverse = n := by
  have h := Nat.ofDigits_digits 10 n
  rw [Nat.ofDigits_eq_foldr] at h
  unfold mathInt
  rw [List.foldl_reverse]
  conv_rhs => rw [← h]
  congr 1
  funext x y
  simp [mul_comm]; ring

/-- The call `parseInt` reads the decimal text of a positive number back, up to rounding. -/
theorem parseIntStr_repr (n : Nat) (h : 0 < n) (neg : Bool) :
    parseIntStr (String.mk ((if neg then ['-'] else []) ++ (Nat.repr n).data)) =
      toDouble (if neg then -(n : Int) else (n : Int)) := by
  rw [repr_data n h]
  have hne : (Nat.digits 10 n).reverse ≠ [] := by
    simp [Nat.digits_ne_nil_iff_ne_zero]; omega
  have hlt : ∀ k ∈ (Nat.digits 10 n).reverse, k < 10 := by
    intro k hk
    exact Nat.digits_lt_base (by norm_num) (List.mem_reverse.mp hk)
  rw [parseIntStr_digits _ hne hlt neg, mathInt_digits]

theorem toDouble_neg_not_gt (z : Int) (h : z ≤ 0) : (toDouble z).gt (Num.fin 0) = false := by
  rcases lt_or_eq_of_le h with hz | rfl
  · unfold toDouble
    simp only [hz, if_true]
    split
    · rfl
    · simp only [Num.gt, Num.lt, decide_eq_false_iff_not]
      omega
  · decide

theorem digitVal_of_not_digit (c : Char) (h : isDecimalDigit c = false) :
    digitVal 10 c = none := by
  unfold isDecimalDigit at h
  unfold digitVal
  simp only [decide_eq_false_iff_not] at h
  simp only [if_neg h]
  split_ifs <;> first | rfl | omega

theorem parseIntStr_of_not_digit (s : String)
    (h : ∀ c, leadingChar s = some c → isDecimalDigit c = false) : parseIntStr s = Num.nan := by
  unfold leadingChar at h
  rcases hs : stripSign (s.toList.dropWhile isStrWhiteSpace) with ⟨neg, cs1⟩
  rw [hs] at h
  match cs1, h, hs with
  | [], _, hs =>
    rw [parseIntStr_stages s _ [] [] neg 10 [] rfl hs rfl rfl]; rfl
  | [c], h, hs =>
    have hc := digitVal_of_not_digit c (h c rfl)
    rw [parseIntStr_stages s _ [c] [c] neg 10 [] rfl hs rfl (by simp [leadingDigits, hc])]; rfl
  | c :: c1 :: cs, h, hs =>
    have hd := h c rfl
    have hc := digitVal_of_not_digit c hd
    have h0 : c ≠ '0' := by
      rintro rfl
      exact absurd hd (by decide)
    rw [parseIntStr_stages s _ (c :: c1 :: cs) (c :: c1 :: cs) neg 10 [] rfl hs
      (by simp [stripHexMarker, h0]) (by simp [leadingDigits, hc])]
    rfl

theorem toString_nat_eq (n : Nat) : toString n = String.mk ((if false then ['-'] else []) ++ (Nat.repr n).data) := rfl

theorem toString_negSucc_eq (m : Nat) :
    toString (Int.negSucc m) = String.mk ((if true then ['-'] else []) ++ (Nat.repr (m + 1)).data) := rfl

theorem parseDCount_of_nan (s : String) (h : parseIntStr s = Num.nan) :
    parseDCount (some s) = Num.fin 1 := by
  unfold parseDCount
  simp only [parseInt, h]
  split <;> rfl

theorem parseDCount_nonpos (z : Int) (h : z ≤ 0) :
    parseDCount (some (toString z)) = Num.fin 1 := by
  have key : (parseIntStr (toString z)).gt (Num.fin 0) = false := by
    match z, h with
    | Int.ofNat 0, _ => decide
    | Int.ofNat (k + 1), h => exact absurd h (by simp)
    | Int.negSucc m, h =>
      rw [toString_negSucc_eq, parseIntStr_repr (m + 1) (by omega) true]
      exact toDouble_neg_not_gt _ (by simp; omega)
  unfold parseDCount
  simp only [parseInt, key, Bool.and_false]
  split <;> rfl

theorem parseDCount_pos (n : Nat) (h0 : 0 < n) (h : n ≤ 2 ^ 53) :
    parseDCount (some (toString n)) = Num.fin n := by
  have hp : parseIntStr (toString n) = Num.fin n := by
    rw [toString_nat_eq, parseIntStr_repr n h0 false]
    rcases Nat.lt_or_eq_of_le h with hlt | rfl
    · exact toDouble_of_lt n hlt
    · exact toDouble_two_pow
  have hne : some (toString n) ≠ some "" := by
    intro he
    have hd : (Nat.repr n).data = [] := congrArg String.data (Option.some.inj he)
    rw [repr_data n h0, List.map_eq_nil_iff, List.reverse_eq_nil_iff] at hd
    exact absurd hd (Nat.digits_ne_nil_iff_ne_zero.mpr (by omega))
  unfold parseDCount
  simp only [parseInt, hp, if_pos hne, Num.isNaN, Num.gt, Num.lt]
  have : (0 : Int) < n := by exact_mod_cast h0
  simp [this]

theorem parseDCount_ge_one (x : Option String) :
    (∃ z : Int, 1 ≤ z ∧ parseDCount x = Num.fin z) ∨ parseDCount x = Num.posInf := by
  unfold parseDCount
  simp only
  split
  · split
    · rename_i hc
      simp only [Bool.and_eq_true, Bool.not_eq_true'] at hc
      rcases hp : parseInt x with z | _ | _ | _
      · rw [hp] at hc
        simp only [Num.gt, Num.lt, decide_eq_true_eq] at hc
        exact Or.inl ⟨z, by omega, rfl⟩
      · exact Or.inr rfl
      · rw [hp] at hc; simp [Num.gt, Num.lt] at hc
      · rw [hp] at hc; simp [Num.isNaN] at hc
    · exact Or.inl ⟨1, le_refl _, rfl⟩
  · exact Or.inl ⟨1, le_refl _, rfl⟩

/-- C5, as amended: `parseDCount` returns 1 for an absent or empty input, for an input
in which no decimal digit follows the leading white space and sign (such as `abc`), and
for the decimal text of zero or of a negative integer; it returns `n` for the decimal
text of a positive integer `n` up to `2 ^ 53`; and every result is an integer `>= 1`
or `+Infinity`. -/
theorem parseDCount_normalises :
    parseDCount none = Num.fin 1 ∧ parseDCount (some "") = Num.fin 1 ∧
    (∀ s : String, (∀ c, leadingChar s = some c → isDecimalDigit c = false) →
      parseDCount (some s) = Num.fin 1) ∧
    (∀ z : Int, z ≤ 0 → parseDCount (some (toString z)) = Num.fin 1) ∧
    (∀ n : Nat, 0 < n → n ≤ 2 ^ 53 → parseDCount (some (toString n)) = Num.fin n) ∧
    (∀ x : Option String,
      (∃ z : Int, 1 ≤ z ∧ parseDCount x = Num.fin z) ∨ parseDCount x = Num.posInf) :=
  ⟨by decide, by decide,
    fun s h => parseDCount_of_nan s (parseIntStr_of_not_digit s h),
    parseDCount_nonpos, parseDCount_pos, parseDCount_ge_one⟩

set_option maxRecDepth 100000 in
set_option exponentiation.threshold 2000 in
/-- A digit string that is long enough parses to `+Infinity`: here 1 followed by 309
zeros, the decimal text of `10 ^ 309`. -/
theorem parseDCount_overflow :
    parseDCount (some (String.mk ('1' :: List.replicate 309 '0'))) = Num.posInf := by
  decide

/-- C5 at the inputs the specification names: `abc`, `-3`, `0` give 1, and `2` gives 2. -/
theorem parseDCount_normalises_witness :
    (∀ c, leadingChar "abc" = some c → isDecimalDigit c = false) ∧
    ((-3 : Int) ≤ 0 ∧ (0 : Int) ≤ 0 ∧ 0 < 2 ∧ 2 ≤ 2 ^ 53) ∧
    parseDCount (some "abc") = Num.fin 1 ∧ parseDCount (some "-3") = Num.fin 1 ∧
    parseDCount (some "0") = Num.fin 1 ∧ parseDCount (some "2") = Num.fin 2 :=
  ⟨by decide, by decide,
    parseDCount_normalises.2.2.1 "abc" (by decide),
    parseDCount_normalises.2.2.2.1 (-3) (by decide),
    parseDCount_normalises.2.2.2.1 0 (by decide),
    parseDCount_normalises.2.2.2.2.1 2 (by decide) (by decide)⟩

/-- C5 fails as stated: `9007199254740993` is the decimal text of the positive integer
`2 ^ 53 + 1`, and `parseDCount` returns `2 ^ 53` for it. -/
theorem parseDCount_rounds :
    toString (9007199254740993 : Nat) = "9007199254740993" ∧
    parseDCount (some "9007199254740993") = Num.fin 9007199254740992 ∧
    parseDCount (some "9007199254740993") ≠ Num.fin 9007199254740993 := by
  decide

/-! ## Identifiers -/

theorem round53_le (n : Nat) (h : n < 2 ^ 58) : round53 n ≤ n + 16 := by
  unfold round53
  split
  · omega
  · have hb : bitLen n ≤ 58 := bitLenAux_le n n 58 h
    have hs : bitLen n - 53 ≤ 5 := by omega
    generalize bitLen n - 53 = s at hs
    have hdiv := Nat.div_add_mod n (2 ^ s)
    have hmod := Nat.mod_lt n (Nat.two_pow_pos s)
    simp only
    interval_cases s <;> simp only [Nat.reducePow, Nat.reduceSub] at * <;> split <;> omega

theorem floor26_lt (d : Draw) (h : d.valid) : d.floor26 < 26 := by
  obtain ⟨h53, he⟩ := h
  unfold Draw.floor26
  have hr := round53_le (d.m * 26) (by omega)
  rw [Nat.div_lt_iff_lt_mul (Nat.two_pow_pos _)]
  have : d.m + 1 ≤ 2 ^ d.e := he
  nlinarith

theorem isLetter_upper (k : Nat) (h : k < 26) : isLetter (Char.ofNat (0x41 + k)) = true := by
  interval_cases k <;> decide

theorem isLetter_lower (k : Nat) (h : k < 26) :
    isLetter (Char.ofNat (0x41 + k + 32)) = true := by
  interval_cases k <;> decide

theorem generateIDLoop_spec (rand : Nat → Draw) (hv : ∀ i, (rand i).valid) :
    ∀ (k pos : Nat) (id : String),
      (generateIDLoop rand k pos id).2 = pos + 2 * k ∧
      ∃ cs : List Char, cs.length = k ∧ (∀ c ∈ cs, isLetter c = true) ∧
        (generateIDLoop rand k pos id).1.data = id.data ++ cs := by
  intro k
  induction k with
  | zero => intro pos id; exact ⟨rfl, [], rfl, by simp, by simp [generateIDLoop]⟩
  | succ k ih =>
    intro pos id
    unfold generateIDLoop
    simp only
    generalize hch : Char.ofNat (if (rand (pos + 1)).belowHalf then 0x41 + (rand pos).floor26 + 32
        else 0x41 + (rand pos).floor26) = ch
    obtain ⟨hpos, cs, hlen, hall, hdata⟩ := ih (pos + 2) (id.push ch)
    refine ⟨by rw [hpos]; omega, ch :: cs, by simp [hlen], ?_, by rw [hdata]; simp⟩
    intro c hc
    rcases List.mem_cons.mp hc with rfl | hc
    · have hlt := floor26_lt (rand pos) (hv pos)
      rw [← hch]
      split
      · exact isLetter_lower _ hlt
      · exact isLetter_upper _ hlt
    · exact hall c hc

theorem letterDraws_valid (code pos : Nat) : (letterDraws code pos).valid := by
  unfold letterDraws Draw.valid
  split
  · have : min ((code - 65) % 32) 25 ≤ 25 := Nat.min_le_right _ _
    simp only
    omega
  · split <;> simp

theorem letterDraws_reach (n : Nat) (h : (65 ≤ n ∧ n ≤ 90) ∨ (97 ≤ n ∧ n ≤ 122)) :
    ∀ i < 8, (generateID (letterDraws n) 0).1.data.get? i = some (Char.ofNat n) := by
  rcases h with ⟨h1, h2⟩ | ⟨h1, h2⟩ <;> interval_cases n <;> decide

/-- C7: whatever the random draws in `[0, 1)`, `generateID` returns a string of exactly 8
characters, each one of the 52 ASCII letters; and every letter can come out at every
position. -/
theorem generateID_letters :
    (∀ (rand : Nat → Draw) (pos : Nat), (∀ i, (rand i).valid) →
      (generateID rand pos).1.length = 8 ∧
      ∀ c ∈ (generateID rand pos).1.data, isLetter c = true) ∧
    (∀ c : Char, isLetter c = true →
      ∃ rand : Nat → Draw, (∀ i, (rand i).valid) ∧
        ∀ i < 8, (generateID rand 0).1.data.get? i = some c) := by
  constructor
  · intro rand pos hv
    obtain ⟨_, cs, hlen, hall, hdata⟩ := generateIDLoop_spec rand hv ID_LENGTH pos ""
    unfold generateID
    rw [String.length, hdata]
    refine ⟨by simpa using hlen, ?_⟩
    intro c hc
    exact hall c (by simpa using hc)
  · intro c hc
    refine ⟨letterDraws c.toNat, letterDraws_valid _, ?_⟩
    have hr := letterDraws_reach c.toNat (by
      unfold isLetter at hc
      simpa using hc)
    rwa [Char.ofNat_toNat] at hr

/-- C7 at the source that always draws 0: the id is `aaaaaaaa`. -/
theorem generateID_letters_witness :
    (Draw.mk 0 1).valid ∧
    (generateID (fun _ => Draw.mk 0 1) 0).1 = "aaaaaaaa" ∧
    (generateID (fun _ => Draw.mk 0 1) 0).1.length = 8 ∧
    ∀ c ∈ (generateID (fun _ => Draw.mk 0 1) 0).1.data, isLetter c = true :=
  ⟨by decide, by decide,
    (generateID_letters.1 (fun _ => Draw.mk 0 1) 0
      (fun _ => (by decide : (Draw.mk 0 1).valid))).1,
    (generateID_letters.1 (fun _ => Draw.mk 0 1) 0
      (fun _ => (by decide : (Draw.mk 0 1).valid))).2⟩

theorem jsGet_undefined {α : Type} (o : String → Option α) (k : String)
    (h : jsGet o k = JsLookup.undefined) : o k = none ∧ k ∉ objectPrototypeKeys := by
  unfold jsGet at h
  split at h
  · exact absurd h (by simp)
  · split at h
    · exact absurd h (by simp)
    · rename_i ho hk
      exact ⟨ho, hk⟩

theorem jsGet_of_none {α : Type} (o : String → Option α) (k : String) (h : o k = none)
    (hk : k ∉ objectPrototypeKeys) : jsGet o k = JsLookup.undefined := by
  simp [jsGet, h, hk]

theorem jsGet_of_some {α : Type} (o : String → Option α) (k : String) (v : α)
    (h : o k = some v) : jsGet o k = JsLookup.own v := by
  simp [jsGet, h]

theorem generateUniqueID_undefined {α : Type} (fileInfo : String → Option α)
    (rand : Nat → Draw) : ∀ (fuel pos : Nat) (g : String × Nat),
      generateUniqueID fileInfo rand fuel pos = some g →
      jsGet fileInfo g.1 = JsLookup.undefined := by
  intro fuel
  induction fuel with
  | zero => intro pos g h; simp [generateUniqueID] at h
  | succ f ih =>
    intro pos g h
    unfold generateUniqueID at h
    simp only at h
    split at h
    · rename_i hu
      cases h
      exact hu
    · exact ih _ g h

/-- The loop of `generateUniqueID` is left at the first candidate that is free: if the
candidate generated at position `pos` is free, the function returns it. -/
theorem generateUniqueID_returns {α : Type} (fileInfo : String → Option α)
    (rand : Nat → Draw) (fuel pos : Nat)
    (h : jsGet fileInfo (generateID rand pos).1 = JsLookup.undefined) :
    generateUniqueID fileInfo rand (fuel + 1) pos = some (generateID rand pos) := by
  unfold generateUniqueID
  simp only [h]

/-- A colliding candidate costs one round of the loop. -/
theorem generateUniqueID_retry {α : Type} (fileInfo : String → Option α)
    (rand : Nat → Draw) (fuel pos : Nat)
    (h : jsGet fileInfo (generateID rand pos).1 ≠ JsLookup.undefined) :
    generateUniqueID fileInfo rand (fuel + 1) pos =
      generateUniqueID fileInfo rand fuel (generateID rand pos).2 := by
  conv_lhs => unfold generateUniqueID
  show (match jsGet fileInfo (generateID rand pos).1 with
    | JsLookup.undefined => some (generateID rand pos)
    | _ => generateUniqueID fileInfo rand fuel (generateID rand pos).2) = _
  split
  · rename_i hu; exact absurd hu h
  · rfl

/-- C6: whenever `generateUniqueID` returns, the id it returns is not a key of `fileInfo`
(the read `fileInfo[id]` is undefined); consequently a session created by `/new` gets
an id under which no file was registered, and only that id is added. -/
theorem generateUniqueID_fresh :
    (∀ (fileInfo : String → Option FileRecord) (rand : Nat → Draw) (fuel pos : Nat)
      (g : String × Nat), generateUniqueID fileInfo rand fuel pos = some g →
        fileInfo g.1 = none ∧ jsGet fileInfo g.1 = JsLookup.undefined) ∧
    (∀ (s s1 : State) (xFilesize xFilename xDcount : Option String) (rand : Nat → Draw)
      (fuel : Nat) (id : String),
      handleNew s xFilesize xFilename xDcount rand fuel = some (s1, PostResponse.created id) →
        s.fileInfo id = none ∧ s1.fileInfo id ≠ none ∧
        ∀ k, k ≠ id → s1.fileInfo k = s.fileInfo k) := by
  constructor
  · intro fileInfo rand fuel pos g h
    have hu := generateUniqueID_undefined fileInfo rand fuel pos g h
    exact ⟨(jsGet_undefined _ _ hu).1, hu⟩
  · intro s s1 a b c rand fuel id h
    unfold handleNew at h
    simp only at h
    split at h
    · split at h
      · exact absurd h (by simp)
      · rename_i g hg
        simp only [Option.some.injEq, Prod.mk.injEq, PostResponse.created.injEq] at h
        obtain ⟨hs, hid⟩ := h
        subst hid
        have hu := generateUniqueID_undefined s.fileInfo rand fuel 0 g hg
        refine ⟨(jsGet_undefined _ _ hu).1, ?_, ?_⟩
        · rw [← hs]; simp
        · intro k hk
          rw [← hs]
          simp [Function.update_noteq hk]
    · simp at h

/-- C6 on a registry that holds `aaaaaaaa`, with a source whose first candidate is
`aaaaaaaa` and whose second is `NNNNNNNN`: the loop skips the first and returns the second. -/
theorem generateUniqueID_fresh_witness :
    generateUniqueID (fun k => if k = "aaaaaaaa" then some (FileRecord.mk none (Num.fin 1)) else none)
      (fun i => if i < 16 then Draw.mk 0 1 else Draw.mk 1 1) 2 0 = some ("NNNNNNNN", 32) ∧
    (fun k => if k = "aaaaaaaa" then some (FileRecord.mk none (Num.fin 1)) else none)
      "NNNNNNNN" = none :=
  ⟨by decide,
    (generateUniqueID_fresh.1
      (fun k => if k = "aaaaaaaa" then some (FileRecord.mk none (Num.fin 1)) else none)
      (fun i => if i < 16 then Draw.mk 0 1 else Draw.mk 1 1) 2 0 ("NNNNNNNN", 32)
      (by decide)).1⟩

/-! ## Deletion -/

theorem deleteFile_of_undefined (s : State) (id : String)
    (h : jsGet s.fileInfo id = JsLookup.undefined) : deleteFile s id = (s, []) := by
  simp [deleteFile, h]

theorem deleteFile_of_defined (s : State) (id : String)
    (h : jsGet s.fileInfo id ≠ JsLookup.undefined) :
    deleteFile s id =
      ({ s with
          files := Function.update s.files id false
          fileInfo := Function.update s.fileInfo id none
          pendingUploads := Function.update s.pendingUploads id none },
       ["./files/" ++ id]) := by
  unfold deleteFile
  split
  · rename_i hu; exact absurd hu h
  · rfl

theorem deleteFile_removes (s : State) (id : String) (r : FileRecord)
    (h : s.fileInfo id = some r) : (deleteFile s id).1.fileInfo id = none := by
  have hd : jsGet s.fileInfo id ≠ JsLookup.undefined := by
    rw [jsGet_of_some _ _ r h]; simp
  rw [deleteFile_of_defined s id hd]
  simp

/-- C9, as amended: `deleteFile` applied twice leaves the same `fileInfo` and
`pendingUploads` as applied once; and when `id` has no FileRecord and is not a property
name inherited from `Object.prototype`, `deleteFile(id)` changes nothing and issues no
storage deletion. -/
theorem deleteFile_idempotent :
    (∀ (s : State) (id : String),
      (deleteFile (deleteFile s id).1 id).1.fileInfo = (deleteFile s id).1.fileInfo ∧
      (deleteFile (deleteFile s id).1 id).1.pendingUploads = (deleteFile s id).1.pendingUploads) ∧
    (∀ (s : State) (id : String), s.fileInfo id = none → id ∉ objectPrototypeKeys →
      deleteFile s id = (s, [])) := by
  constructor
  · intro s id
    by_cases h : jsGet s.fileInfo id = JsLookup.undefined
    · rw [deleteFile_of_undefined s id h, deleteFile_of_undefined s id h]
      exact ⟨rfl, rfl⟩
    · rw [deleteFile_of_defined s id h]
      generalize hs1 : ({ s with
          files := Function.update s.files id false
          fileInfo := Function.update s.fileInfo id none
          pendingUploads := Function.update s.pendingUploads id none } : State) = s1
      by_cases h1 : jsGet s1.fileInfo id = JsLookup.undefined
      · rw [deleteFile_of_undefined s1 id h1]
        exact ⟨rfl, rfl⟩
      · rw [deleteFile_of_defined s1 id h1]
        subst hs1
        simp
  · intro s id h hk
    exact deleteFile_of_undefined s id (jsGet_of_none _ _ h hk)

/-- C9 at the empty registry and the id `abc`: nothing is deleted, nothing changes. -/
theorem deleteFile_idempotent_witness :
    State.init.fileInfo "abc" = none ∧ "abc" ∉ objectPrototypeKeys ∧
    deleteFile State.init "abc" = (State.init, []) :=
  ⟨rfl, by decide, deleteFile_idempotent.2 State.init "abc" rfl (by decide)⟩

/-- C9 fails as stated: `constructor` has no FileRecord in the empty registry, yet
`deleteFile("constructor")` issues the deletion of `./files/constructor`, because the
read `fileInfo["constructor"]` finds the property inherited from `Object.prototype`. -/
theorem deleteFile_inherited_unlinks :
    State.init.fileInfo "constructor" = none ∧
    (deleteFile State.init "constructor").2 = ["./files/constructor"] := by
  decide

/-- C10: for a registered id, `deleteFile(id)` removes the entry of `id` from `fileInfo`
and from `pendingUploads`, issues the deletion of the stored object of exactly that id
(which is then gone), and leaves the records, sessions and stored objects of every
other id unchanged. -/
theorem deleteFile_registered (s : State) (id : String) (r : FileRecord)
    (h : s.fileInfo id = some r) :
    (deleteFile s id).1.fileInfo id = none ∧
    (deleteFile s id).1.pendingUploads id = none ∧
    (deleteFile s id).2 = ["./files/" ++ id] ∧
    (deleteFile s id).1.files id = false ∧
    ∀ k, k ≠ id →
      (deleteFile s id).1.fileInfo k = s.fileInfo k ∧
      (deleteFile s id).1.pendingUploads k = s.pendingUploads k ∧
      (deleteFile s id).1.files k = s.files k := by
  have hd : jsGet s.fileInfo id ≠ JsLookup.undefined := by
    rw [jsGet_of_some _ _ r h]; simp
  rw [deleteFile_of_defined s id hd]
  refine ⟨by simp, by simp, rfl, by simp, ?_⟩
  intro k hk
  simp [Function.update_noteq hk]

/-- C10 on a state with an upload in progress under `aaaaaaaa`: after `deleteFile` the
record and the session are gone and the deletion of `./files/aaaaaaaa` was issued. -/
theorem deleteFile_registered_witness :
    (opened "12").fileInfo "aaaaaaaa" = some { filename := some "f.txt", dCount := Num.fin 2 } ∧
    (opened "12").pendingUploads "aaaaaaaa" ≠ none ∧
    (deleteFile (opened "12") "aaaaaaaa").1.fileInfo "aaaaaaaa" = none ∧
    (deleteFile (opened "12") "aaaaaaaa").1.pendingUploads "aaaaaaaa" = none ∧
    (deleteFile (opened "12") "aaaaaaaa").2 = ["./files/aaaaaaaa"] :=
  ⟨by decide, by decide,
    (deleteFile_registered (opened "12") "aaaaaaaa"
      { filename := some "f.txt", dCount := Num.fin 2 } (by decide)).1,
    (deleteFile_registered (opened "12") "aaaaaaaa"
      { filename := some "f.txt", dCount := Num.fin 2 } (by decide)).2.1,
    (deleteFile_registered (opened "12") "aaaaaaaa"
      { filename := some "f.txt", dCount := Num.fin 2 } (by decide)).2.2.1⟩

/-! ## Retrieval -/

/-- How `handleGET` routes the URL of an id. -/
theorem url_facts (id : String) (h0 : id ≠ "") (hdot : '.' ∉ id.data) :
    ("/" ++ id) ≠ "/" ∧ '.' ∉ ("/" ++ id).data ∧ substr1 ("/" ++ id) = id := by
  have hd : ("/" ++ id).data = '/' :: id.data := by
    rw [String.data_append]; rfl
  refine ⟨?_, ?_, ?_⟩
  · intro h
    have h1 := congrArg String.data h
    rw [hd] at h1
    have h2 : id.data = [] := by simpa using h1
    exact h0 (String.ext h2)
  · rw [hd]
    simp only [List.mem_cons, not_or]
    exact ⟨by decide, hdot⟩
  · unfold substr1
    rw [hd]
    rfl

theorem handleGET_id (s : State) (id : String) (h0 : id ≠ "") (hdot : '.' ∉ id.data) :
    handleGET s ("/" ++ id) =
      match jsGet s.fileInfo id with
      | JsLookup.undefined => (s, Response.notFound)
      | _ =>
        if (sendFileID s id).2 = Response.threw then sendFileID s id
        else (decrement (sendFileID s id).1 id, (sendFileID s id).2) := by
  obtain ⟨h1, h2, h3⟩ := url_facts id h0 hdot
  unfold handleGET
  rw [if_neg h1, if_neg h2, h3]

/-- A request for an id that has no record and is not a name inherited from
`Object.prototype` is answered with the not-found response and changes nothing. -/
theorem handleGET_unregistered (s : State) (id : String) (h0 : id ≠ "")
    (hdot : '.' ∉ id.data) (h : s.fileInfo id = none) (hk : id ∉ objectPrototypeKeys) :
    handleGET s ("/" ++ id) = (s, Response.notFound) := by
  rw [handleGET_id s id h0 hdot, jsGet_of_none _ _ h hk]

/-- C8 fails on the code: no FileRecord is registered for `constructor` (the registry is
empty and `./files` is empty), yet the request `GET /constructor` is not answered with
the not-found response: `fileInfo["constructor"]` is the inherited constructor function,
so `sendFileID` runs and `fs.statSync` throws. -/
theorem handleGET_inherited_throws :
    State.init.fileInfo "constructor" = none ∧
    (handleGET State.init "/constructor").2 = Response.threw ∧
    (handleGET State.init "/constructor").2 ≠ Response.notFound := by
  decide

theorem handleGET_served (s : State) (id : String) (r : FileRecord) (h0 : id ≠ "")
    (hdot : '.' ∉ id.data) (h : s.fileInfo id = some r) (hf : s.files id = true) :
    handleGET s ("/" ++ id) =
      ({ s with
          readers := id :: s.readers
          fileInfo := Function.update s.fileInfo id (some { r with dCount := r.dCount.dec }) },
        Response.served id) := by
  rw [handleGET_id s id h0 hdot, jsGet_of_some _ _ r h]
  simp [sendFileID, jsGet_of_some _ _ r h, hf, decrement, h]

theorem decrement_registered (s : State) (id : String) (r : FileRecord)
    (h : s.fileInfo id = some r) :
    (decrement s id).fileInfo id = some { r with dCount := r.dCount.dec } ∧
    (decrement s id).files = s.files ∧ (decrement s id).readers = s.readers := by
  simp [decrement, h]

/-- One retrieval of a registered file whose stored object exists: it is served and the
counter is decremented; the record stays, whatever the counter. -/
theorem retrieve_served (s : State) (id : String) (r : FileRecord) (h0 : id ≠ "")
    (hdot : '.' ∉ id.data) (h : s.fileInfo id = some r) (hf : s.files id = true) :
    retrieve s id = some
      ({ s with
          readers := id :: s.readers
          fileInfo := Function.update s.fileInfo id (some { r with dCount := r.dCount.dec }) },
        Response.served id) := by
  unfold retrieve
  rw [handleGET_served s id r h0 hdot h hf]
  simp

theorem retrieve_unregistered (s : State) (id : String) (h0 : id ≠ "")
    (hdot : '.' ∉ id.data) (h : s.fileInfo id = none) (hk : id ∉ objectPrototypeKeys) :
    retrieve s id = some (s, Response.notFound) := by
  unfold retrieve
  rw [handleGET_unregistered s id h0 hdot h hk]
  simp

theorem retrievals_succ (n : Nat) (s s1 : State) (id : String) (r : Response)
    (h : retrieve s id = some (s1, r)) :
    retrievals (n + 1) s id = (retrievals n s1 id).map (fun rs => r :: rs) := by
  rw [retrievals, h]
  rfl

/-- Retrievals performed one after another never exhaust a registered file: every one of
them is served, whatever the download counter is. -/
theorem retrievals_served (id : String) (h0 : id ≠ "") (hdot : '.' ∉ id.data) :
    ∀ (k : Nat) (s : State) (r : FileRecord), s.fileInfo id = some r → s.files id = true →
      retrievals k s id = some (List.replicate k (Response.served id)) := by
  intro k
  induction k with
  | zero => intro s r _ _; rfl
  | succ k ih =>
    intro s r h hf
    rw [retrievals_succ _ _ _ _ _ (retrieve_served s id r h0 hdot h hf),
      ih { s with
            readers := id :: s.readers
            fileInfo := Function.update s.fileInfo id (some { r with dCount := r.dCount.dec }) }
        { r with dCount := r.dCount.dec } (by simp) hf]
    rfl

/-- C2 on the code: a file uploaded with allowance `"2"` (the counter of its record is 2)
and retrieved any number of times, one retrieval after another, each transfer completing
before the next request.  Every retrieval is served; in particular three retrievals are
answered served, served, served and not served, served, not found, and after them the
record is still registered, with counter -1 and three `finish` listeners that were never
called. -/
theorem retrievals_never_refused :
    (run State.init uploadedTwiceTrace).map (fun s => s.fileInfo "aaaaaaaa") =
      some (some { filename := some "f.txt", dCount := Num.fin 2 }) ∧
    (∀ n : Nat, (run State.init uploadedTwiceTrace).bind
      (fun s => retrievals n s "aaaaaaaa") =
        some (List.replicate n (Response.served "aaaaaaaa"))) ∧
    (run State.init uploadedTwiceTrace).bind (fun s => retrievals 3 s "aaaaaaaa") ≠
      some [Response.served "aaaaaaaa", Response.served "aaaaaaaa", Response.notFound] ∧
    (run State.init (uploadedTwiceTrace ++
      [Event.get "/aaaaaaaa", Event.get "/aaaaaaaa", Event.get "/aaaaaaaa"])).map
      (fun s => (s.fileInfo "aaaaaaaa", s.readers)) =
      some (some { filename := some "f.txt", dCount := Num.fin (-1) },
        ["aaaaaaaa", "aaaaaaaa", "aaaaaaaa"]) := by
  refine ⟨by decide, ?_, by decide, by decide⟩
  intro n
  obtain ⟨s, hs, hfi, hf⟩ : ∃ s, run State.init uploadedTwiceTrace = some s ∧
      s.fileInfo "aaaaaaaa" = some { filename := some "f.txt", dCount := Num.fin 2 } ∧
      s.files "aaaaaaaa" = true :=
    ⟨(run State.init uploadedTwiceTrace).getD State.init, rfl, by decide, by decide⟩
  rw [hs]
  exact retrievals_served "aaaaaaaa" (by decide) (by decide) n s _ hfi hf

/-! ## Overlapping retrievals -/

theorem reachable_run (es : List Event) : ∀ (s s1 : State), Reachable s →
    run s es = some s1 → Reachable s1 := by
  induction es with
  | nil =>
    intro s s1 hs h
    cases h
    exact hs
  | cons e es ih =>
    intro s s1 hs h
    unfold run at h
    cases he : step s e with
    | none => rw [he] at h; cases h
    | some s2 =>
      rw [he] at h
      exact ih s2 s1 (Reachable.step e hs he) h

/-- C3 on the code: a file uploaded with allowance `"1"` (counter 1) and two retrieval
requests, the second handled while the transfer of the first is still going on.  Both
requests are served; the `finish` listeners they registered are never called, and even
their bodies, run on the state reached (once, or one after the other), would issue no
deletion; the record is still registered with counter -1, and a further request is
served again: `deleteFile` has removed the record zero times. -/
theorem overlapping_never_deleted :
    (run State.init uploadedTrace).map
      (fun s => (s.fileInfo "aaaaaaaa", (handleGET s "/aaaaaaaa").2,
        (handleGET (handleGET s "/aaaaaaaa").1 "/aaaaaaaa").2)) =
      some (some { filename := some "f.txt", dCount := Num.fin 1 },
        Response.served "aaaaaaaa", Response.served "aaaaaaaa") ∧
    (run State.init (uploadedTrace ++ [Event.get "/aaaaaaaa", Event.get "/aaaaaaaa"])).map
      (fun s => (readFinish s "aaaaaaaa").map Prod.snd) = some (some []) ∧
    (run State.init (uploadedTrace ++ [Event.get "/aaaaaaaa", Event.get "/aaaaaaaa"])).map
      (fun s => (readFinish s "aaaaaaaa").bind
        (fun r => (readFinish r.1 "aaaaaaaa").map
          (fun r1 => (r.2, r1.2, r1.1.fileInfo "aaaaaaaa", (handleGET r1.1 "/aaaaaaaa").2)))) =
      some (some ([], [], some { filename := some "f.txt", dCount := Num.fin (-1) },
        Response.served "aaaaaaaa")) ∧
    (run State.init (uploadedTrace ++ [Event.get "/aaaaaaaa", Event.get "/aaaaaaaa"])).map
      (fun s => (s.fileInfo "aaaaaaaa", s.readers, (handleGET s "/aaaaaaaa").2)) =
      some (some { filename := some "f.txt", dCount := Num.fin (-1) },
        ["aaaaaaaa", "aaaaaaaa"], Response.served "aaaaaaaa") := by
  decide

/-- C4 on the code: after a session was created with allowance `"1"`, uploaded and
retrieved once, the reachable state holds the record with counter 0; a second retrieval
request, handled during the transfer of the first or after it, is served from that
record, and the state reached has counter -1. -/
theorem served_at_zero :
    ∃ s s1 : State, run State.init oneDownloadTrace = some s ∧ Reachable s ∧
      s.fileInfo "aaaaaaaa" = some { filename := some "f.txt", dCount := Num.fin 0 } ∧
      handleGET s "/aaaaaaaa" = (s1, Response.served "aaaaaaaa") ∧ Reachable s1 ∧
      s1.fileInfo "aaaaaaaa" = some { filename := some "f.txt", dCount := Num.fin (-1) } := by
  have hrun : run State.init oneDownloadTrace = some afterOneDownload := rfl
  have hget : (handleGET afterOneDownload "/aaaaaaaa").2 = Response.served "aaaaaaaa" := by
    decide
  have hreach := reachable_run _ _ _ Reachable.init hrun
  refine ⟨afterOneDownload, (handleGET afterOneDownload "/aaaaaaaa").1, hrun, hreach,
    by decide, ?_, ?_, by decide⟩
  · rw [← hget]
  · refine Reachable.step (Event.get "/aaaaaaaa") hreach ?_
    simp only [step, hget]
    rfl

/-! ## Reassembly -/

theorem getChunk_setChunk (chunks : List (Option Bytes)) (k j : Nat) (data : Bytes) :
    getChunk (setChunk chunks k data) j = if j = k then some data else getChunk chunks j := by
  unfold getChunk setChunk
  split
  · rename_i hk
    simp only [List.get?_eq_getElem?, List.getElem?_set]
    by_cases hjk : j = k
    · subst hjk; simp [hk]
    · have : ¬ k = j := fun h => hjk h.symm
      simp [hjk, this]
  · rename_i hk
    simp only [List.get?_eq_getElem?]
    by_cases hjk : j = k
    · subst hjk
      have hlen : (chunks ++ List.replicate (j - chunks.length) none).length = j := by
        simp; omega
      rw [List.getElem?_append_right (by omega), hlen]
      simp
    · simp only [hjk, if_false]
      by_cases hj : j < chunks.length
      · rw [List.append_assoc, List.getElem?_append_left hj]
      · rw [List.getElem?_eq_none (by omega : chunks.length ≤ j)]
        by_cases hj2 : j < k
        · rw [List.getElem?_append_left (by simp; omega),
            List.getElem?_append_right (by omega), List.getElem?_replicate]
          simp
        · rw [List.getElem?_eq_none (by simp; omega)]

theorem getChunk_of_length_le (chunks : List (Option Bytes)) (k : Nat)
    (h : chunks.length ≤ k) : getChunk chunks k = none := by
  unfold getChunk
  rw [List.get?_eq_getElem?, List.getElem?_eq_none h]
  rfl

/-- What the drain loop leaves alone, and where it stops: at an index that holds no
chunk, or after all of its `fuel` iterations. -/
theorem drainLoop_spec : ∀ (fuel : Nat) (p : Pending),
    (drainLoop fuel p).chunks = p.chunks ∧ (drainLoop fuel p).received = p.received ∧
    (drainLoop fuel p).size = p.size ∧ (drainLoop fuel p).id = p.id ∧
    p.nextChunk ≤ (drainLoop fuel p).nextChunk ∧
    (getChunk p.chunks (drainLoop fuel p).nextChunk = none ∨
      (drainLoop fuel p).nextChunk = p.nextChunk + fuel) := by
  intro fuel
  induction fuel with
  | zero => intro p; simp [drainLoop]
  | succ f ih =>
    intro p
    unfold drainLoop
    split
    · rename_i c hc
      obtain ⟨h1, h2, h3, h4, h5, h6⟩ := ih
        { p with writeStream := p.writeStream.write c, nextChunk := p.nextChunk + 1 }
      refine ⟨h1, h2, h3, h4, by simp only at h5; omega, ?_⟩
      rcases h6 with h6 | h6
      · exact Or.inl h6
      · exact Or.inr (by simp only at h6; omega)
    · rename_i hc
      exact ⟨rfl, rfl, rfl, rfl, le_refl _, Or.inl hc⟩

/-- The `while (c)` loop is left through its exit test: after `drain`, the array holds
no chunk at `nextChunk`, so the bound on the iterations is never what stops the loop. -/
theorem drain_exit (p : Pending) : getChunk (drain p).chunks (drain p).nextChunk = none := by
  obtain ⟨h1, _, _, _, h5, h6⟩ := drainLoop_spec p.chunks.length p
  unfold drain
  rw [h1]
  rcases h6 with h6 | h6
  · exact h6
  · exact getChunk_of_length_le _ _ (by omega)

theorem drainLoop_reassembling (cs : List Bytes) (done : List Nat) :
    ∀ (fuel : Nat) (p : Pending),
      (∀ j, getChunk p.chunks j = if j ∈ done then cs.get? j else none) →
      (∀ j, j < p.nextChunk → j ∈ done) →
      p.writeStream = { writes := cs.take p.nextChunk, ended := false, refused := [] } →
      (∀ j, j < (drainLoop fuel p).nextChunk → j ∈ done) ∧
      (drainLoop fuel p).writeStream =
        { writes := cs.take (drainLoop fuel p).nextChunk, ended := false, refused := [] } := by
  intro fuel
  induction fuel with
  | zero => intro p _ hb hw; exact ⟨hb, hw⟩
  | succ f ih =>
    intro p hc hb hw
    unfold drainLoop
    split
    · rename_i c hsome
      have hmem : p.nextChunk ∈ done := by
        by_contra hn
        rw [hc, if_neg hn] at hsome
        cases hsome
      rw [hc, if_pos hmem, List.get?_eq_getElem?] at hsome
      apply ih
      · exact hc
      · intro j hj
        rcases Nat.lt_succ_iff_lt_or_eq.mp hj with h | h
        · exact hb j h
        · rw [h]; exact hmem
      · simp only [WriteStream.write, hw, List.take_succ, hsome]
        rfl
    · exact ⟨hb, hw⟩

theorem getD_of_lt (cs : List Bytes) (k : Nat) (h : k < cs.length) :
    cs.get? k = some (cs.getD k []) := by
  simp [List.getD, List.getElem?_eq_getElem h]

/-- One submission of a chunk that was not submitted before keeps the reassembly
invariant; the sink is ended exactly when all bytes have been received. -/
theorem onEnd_step (cs : List Bytes) (done : List Nat) (p : Pending) (k : Nat)
    (inv : Reassembling cs done p) (hk : k < cs.length) (hdone : ∀ j ∈ done, j < cs.length) :
    ∃ p3 : Pending, Reassembling cs (k :: done) p3 ∧
      onEnd p k (cs.getD k []) =
        if cs.flatten.length ≤ p3.received then
          ({ p3 with writeStream := { p3.writeStream with ended := true } }, true)
        else (p3, false) := by
  generalize hp2 : ({ p with
    received := p.received + (cs.getD k []).length
    chunks := setChunk p.chunks k (cs.getD k []) } : Pending) = p2
  have hchunks : ∀ j, getChunk p2.chunks j = if j ∈ k :: done then cs.get? j else none := by
    intro j
    subst hp2
    simp only [getChunk_setChunk, inv.chunksOk, List.mem_cons]
    by_cases hjk : j = k
    · subst hjk
      rw [if_pos rfl, if_pos (Or.inl rfl)]
      exact (getD_of_lt cs j hk).symm
    · simp [hjk]
  have hbelow : ∀ j, j < p2.nextChunk → j ∈ k :: done := by
    intro j hj
    subst hp2
    exact List.mem_cons_of_mem _ (inv.below j hj)
  have hsink : p2.writeStream =
      { writes := cs.take p2.nextChunk, ended := false, refused := [] } := by
    subst hp2
    exact inv.sink
  obtain ⟨h1, h2, h3, _, _, _⟩ := drainLoop_spec p2.chunks.length p2
  obtain ⟨hb, hw⟩ := drainLoop_reassembling cs (k :: done) p2.chunks.length p2 hchunks hbelow hsink
  have hexit := drain_exit p2
  have hsize : (drain p2).size = Num.fin ((cs.flatten.length : Nat) : Int) := by
    unfold drain; rw [h3]; subst hp2; exact inv.size
  refine ⟨drain p2, ⟨?_, hb, ?_, hw, ?_, hsize⟩, ?_⟩
  · intro j
    unfold drain; rw [h1]; exact hchunks j
  · intro hmem
    have hlt : (drain p2).nextChunk < cs.length := by
      rcases List.mem_cons.mp hmem with h | h
      · rw [h]; exact hk
      · exact hdone _ h
    unfold drain at hexit hmem hlt
    rw [h1, hchunks, if_pos hmem, getD_of_lt cs _ hlt] at hexit
    cases hexit
  · unfold drain; rw [h2]; subst hp2
    simp only [List.map_cons, List.sum_cons, inv.received]
    omega
  · unfold onEnd
    simp only [hp2]
    rw [hsize]
    by_cases hle : cs.flatten.length ≤ (drain p2).received
    · rw [if_pos hle, if_pos]
      simp only [Num.ge, Num.lt, Bool.not_eq_true', decide_eq_false_iff_not]
      omega
    · rw [if_neg hle, if_neg]
      simp only [Num.ge, Num.lt, Bool.not_eq_true', decide_eq_false_iff_not]
      omega

theorem flatten_length_eq (cs : List Bytes) :
    cs.flatten.length = ((List.range cs.length).map (fun k => (cs.getD k []).length)).sum := by
  rw [List.length_flatten]
  congr 1
  apply List.ext_getElem
  · simp
  · intro i h1 h2
    simp only [List.length_map] at h1
    simp [List.getD, List.getElem?_eq_getElem h1]

theorem sum_pos_of_nonempty (cs : List Bytes) (hne : ∀ c ∈ cs, c ≠ []) (rest : List Nat)
    (hrest : rest ≠ []) (hlt : ∀ j ∈ rest, j < cs.length) :
    0 < (rest.map (fun k => (cs.getD k []).length)).sum := by
  obtain ⟨j, tl, rfl⟩ := List.exists_cons_of_ne_nil hrest
  have hj := hlt j (List.mem_cons_self _ _)
  have hget : cs.getD j [] = cs[j] := by simp [List.getD, List.getElem?_eq_getElem hj]
  have : cs[j] ≠ [] := hne _ (List.getElem_mem _)
  have hpos : 0 < (cs.getD j []).length := by
    rw [hget]; exact List.length_pos.mpr this
  simp only [List.map_cons, List.sum_cons]
  omega

/-- Submitting the chunks that are still missing, in any order, to a session that
satisfies the reassembly invariant: every submission but the last is answered without
ending the sink, the last one ends it, and the sink then holds all chunks in index order. -/
theorem submitChunks_reassemble (cs : List Bytes) (hne : ∀ c ∈ cs, c ≠ []) :
    ∀ (todo done : List Nat) (p : Pending), Reassembling cs done p →
      (done ++ todo).Perm (List.range cs.length) → todo ≠ [] →
      (submitChunks p (todo.map (fun k => (k, cs.getD k [])))).1.writeStream =
        { writes := cs, ended := true, refused := [] } ∧
      (submitChunks p (todo.map (fun k => (k, cs.getD k [])))).2 =
        List.replicate (todo.length - 1) false ++ [true] ∧
      Quiet p (todo.map (fun k => (k, cs.getD k []))) := by
  intro todo
  induction todo with
  | nil => intro done p _ _ h; exact absurd rfl h
  | cons k rest ih =>
    intro done p inv hperm _
    have hmem : ∀ j, j ∈ done ++ k :: rest → j < cs.length := by
      intro j hj
      exact List.mem_range.mp (hperm.mem_iff.mp hj)
    have hk : k < cs.length := hmem k (by simp)
    have hdone : ∀ j ∈ done, j < cs.length := fun j hj => hmem j (by simp [hj])
    have hrestlt : ∀ j ∈ rest, j < cs.length := fun j hj => hmem j (by simp [hj])
    obtain ⟨p3, inv3, hend⟩ := onEnd_step cs done p k inv hk hdone
    have hperm3 : ((k :: done) ++ rest).Perm (List.range cs.length) :=
      (List.perm_middle.symm.trans hperm)
    have htotal : cs.flatten.length =
        p3.received + (rest.map (fun k => (cs.getD k []).length)).sum := by
      rw [flatten_length_eq, ← (hperm3.map _).sum_eq, inv3.received, List.map_append,
        List.sum_append]
    have hquiet : failedWrites p k (cs.getD k []) = 0 := by
      unfold failedWrites
      rw [hend]
      split <;> simp [inv3.sink]
    simp only [List.map_cons, submitChunks, Quiet, hquiet, hend, true_and]
    by_cases hrest : rest = []
    · subst hrest
      have hle : cs.flatten.length ≤ p3.received := by
        simp only [List.map_nil, List.sum_nil, Nat.add_zero] at htotal
        omega
      have hnext : p3.nextChunk = cs.length := by
        have h1 : ¬ p3.nextChunk < cs.length := by
          intro hlt
          have := hperm3.mem_iff.mpr (List.mem_range.mpr hlt)
          exact inv3.next (by simpa using this)
        have h2 : ¬ cs.length < p3.nextChunk := by
          intro hlt
          have := inv3.below cs.length hlt
          have := List.mem_range.mp (hperm3.mem_iff.mp (by simpa using this))
          omega
        omega
      rw [if_pos hle]
      simp [submitChunks, Quiet, inv3.sink, hnext]
    · have hpos := sum_pos_of_nonempty cs hne rest hrest hrestlt
      have hlt : ¬ cs.flatten.length ≤ p3.received := by omega
      rw [if_neg hlt]
      obtain ⟨ih1, ih2, ih3⟩ := ih (k :: done) p3 inv3 hperm3 hrest
      refine ⟨ih1, ?_, ih3⟩
      simp only [ih2, List.length_cons, Nat.add_sub_cancel]
      have : rest.length = (rest.length - 1) + 1 := by
        have := List.length_pos.mpr hrest
        omega
      conv_rhs => rw [this, List.replicate_succ]
      rfl

/-- The handler of a chunk submission that finds its session: the session is replaced
by the one the `end` callback leaves, the registry is not touched, and the answer is
left to the sink exactly when `end` was called. -/
theorem handleData_own (s : State) (id : String) (p : Pending) (k : Nat) (d : Bytes)
    (h : s.pendingUploads id = some p) :
    (handleData s id k (some d)).1.pendingUploads id = some (onEnd p k d).1 ∧
    (handleData s id k (some d)).1.fileInfo = s.fileInfo ∧
    (handleData s id k (some d)).2 =
      if (onEnd p k d).2 then PostResponse.completing else PostResponse.accepted := by
  unfold handleData
  rw [jsGet_of_some _ _ p h]
  simp only
  split <;> simp

/-- A chunk submission none of whose writes fails is the handler alone. -/
theorem dataTurn_quiet (s : State) (id : String) (p : Pending) (k : Nat) (d : Bytes)
    (h : s.pendingUploads id = some p) (hq : failedWrites p k d = 0) :
    dataTurn s id k (some d) = handleData s id k (some d) := by
  unfold dataTurn
  rw [jsGet_of_some _ _ p h]
  simp [hq]

/-- A chunk submission one of whose writes fails: the error callback of the write
answers 500 and deletes the upload, its session as well as its record. -/
theorem dataTurn_failed (s : State) (id : String) (p : Pending) (k : Nat) (d : Bytes)
    (h : s.pendingUploads id = some p) (hreg : s.fileInfo id ≠ none)
    (hq : failedWrites p k d ≠ 0) :
    (dataTurn s id k (some d)).2 = PostResponse.writeFailed ∧
    (dataTurn s id k (some d)).1.pendingUploads id = none ∧
    (dataTurn s id k (some d)).1.fileInfo id = none := by
  obtain ⟨_, hfi, _⟩ := handleData_own s id p k d h
  obtain ⟨r, hr⟩ := Option.ne_none_iff_exists'.mp hreg
  have hd : jsGet (handleData s id k (some d)).1.fileInfo id ≠ JsLookup.undefined := by
    rw [hfi, jsGet_of_some _ _ r hr]; simp
  unfold dataTurn
  rw [jsGet_of_some _ _ p h]
  simp only [Nat.pos_of_ne_zero hq, if_true, writeError]
  rw [deleteFile_of_defined _ id hd]
  simp

/-- A chunk submission for an id without a session leaves the state as it is. -/
theorem dataTurn_gone (s : State) (id : String) (k : Nat) (payload : Option Bytes)
    (h : s.pendingUploads id = none) : (dataTurn s id k payload).1 = s := by
  by_cases hk : id ∈ objectPrototypeKeys
  · have hj : jsGet s.pendingUploads id = JsLookup.inherited := by simp [jsGet, h, hk]
    unfold dataTurn handleData
    rw [hj]
    cases payload <;> rfl
  · have hj : jsGet s.pendingUploads id = JsLookup.undefined := jsGet_of_none _ _ h hk
    unfold dataTurn handleData
    rw [hj]

theorem submitAll_gone (id : String) : ∀ (subs : List (Nat × Bytes)) (s : State),
    s.pendingUploads id = none → (submitAll s id subs).1 = s := by
  intro subs
  induction subs with
  | nil => intro s _; rfl
  | cons sub rest ih =>
    intro s h
    have h1 := dataTurn_gone s id sub.1 (some sub.2) h
    simp only [submitAll]
    rw [ih _ (by rw [h1]; exact h), h1]

/-- A series of chunk submissions during which no write fails: the session the state
holds afterwards is the one the `end` callbacks produce, and every answer is a plain
success or is left to the sink. -/
theorem submitAll_own (id : String) : ∀ (subs : List (Nat × Bytes)) (s : State) (p : Pending),
    s.pendingUploads id = some p → Quiet p subs →
    (submitAll s id subs).1.pendingUploads id = some (submitChunks p subs).1 ∧
    (submitAll s id subs).1.fileInfo = s.fileInfo ∧
    (submitAll s id subs).2 = (submitChunks p subs).2.map
      (fun b => if b then PostResponse.completing else PostResponse.accepted) := by
  intro subs
  induction subs with
  | nil => intro s p h _; exact ⟨h, rfl, rfl⟩
  | cons sub rest ih =>
    intro s p h hq
    obtain ⟨hd1, hd2, hd3⟩ := handleData_own s id p sub.1 sub.2 h
    have ht := dataTurn_quiet s id p sub.1 sub.2 h hq.1
    obtain ⟨ih1, ih2, ih3⟩ := ih _ _ hd1 hq.2
    simp only [submitAll, submitChunks, List.map_cons, ht]
    exact ⟨ih1, by rw [ih2, hd2], by rw [hd3, ih3]⟩

/-- A series of chunk submissions after which the session is still there: no write
failed on the way. -/
theorem submitAll_survives (id : String) : ∀ (subs : List (Nat × Bytes)) (s : State)
    (p q : Pending), s.pendingUploads id = some p → s.fileInfo id ≠ none →
    (submitAll s id subs).1.pendingUploads id = some q → Quiet p subs := by
  intro subs
  induction subs with
  | nil => intro s p q _ _ _; trivial
  | cons sub rest ih =>
    intro s p q h hreg hq
    simp only [submitAll] at hq
    by_cases hf : failedWrites p sub.1 sub.2 = 0
    · obtain ⟨hd1, hd2, _⟩ := handleData_own s id p sub.1 sub.2 h
      rw [dataTurn_quiet s id p sub.1 sub.2 h hf] at hq
      exact ⟨hf, ih _ _ q hd1 (by rw [hd2]; exact hreg) hq⟩
    · obtain ⟨_, hgone, _⟩ := dataTurn_failed s id p sub.1 sub.2 h hreg hf
      rw [submitAll_gone id rest _ hgone, hgone] at hq
      cases hq

theorem reassembling_newSession (cs : List Bytes) (id : String) :
    Reassembling cs [] (newSession id (Num.fin ((cs.flatten.length : Nat) : Int))) where
  chunksOk := by intro j; simp [newSession, getChunk]
  below := by intro j hj; simp [newSession] at hj
  next := by simp
  sink := by simp [newSession]
  received := by simp [newSession]
  size := rfl

/-- C1, as amended: a session opened with a declared size equal to the total length of
the chunks `c_0 .. c_{n-1}`, `n >= 1`, none of them empty.  In whatever order the
chunks are submitted to `/data`, each index exactly once, every submission before the
last is answered with a plain success, the last one finalizes the upload, and the
writes the sink has then received are exactly `c_0, ..., c_{n-1}` in this order, so the
stored bytes are their concatenation. -/
theorem reassembly_order_independent (s : State) (id : String) (cs : List Bytes)
    (order : List Nat)
    (hs : s.pendingUploads id =
      some (newSession id (Num.fin ((cs.flatten.length : Nat) : Int))))
    (hn : cs ≠ []) (hne : ∀ c ∈ cs, c ≠ []) (hperm : order.Perm (List.range cs.length)) :
    ∃ p : Pending,
      (submitAll s id (order.map (fun k => (k, cs.getD k [])))).1.pendingUploads id = some p ∧
      p.writeStream = { writes := cs, ended := true, refused := [] } ∧
      p.writeStream.writes.flatten = cs.flatten ∧
      (submitAll s id (order.map (fun k => (k, cs.getD k [])))).2 =
        List.replicate (cs.length - 1) PostResponse.accepted ++ [PostResponse.completing] := by
  have horder : order ≠ [] := by
    intro h
    subst h
    have := hperm.length_eq
    simp at this
    exact hn (List.length_eq_zero.mp this.symm)
  obtain ⟨h3, h4, h5⟩ := submitChunks_reassemble cs hne order [] _
    (reassembling_newSession cs id) (by simpa using hperm) horder
  obtain ⟨h1, _, h2⟩ := submitAll_own id (order.map (fun k => (k, cs.getD k []))) s _ hs h5
  refine ⟨_, h1, h3, by rw [h3], ?_⟩
  rw [h2, h4, hperm.length_eq]
  simp

/-- C1 on the scenario of the specification: declared size 12, chunk 1 = `world!`
submitted before chunk 0 = `hello `.  After the first submission nothing has been
written to the sink; after the second the sink holds `hello world!` and is ended. -/
theorem reassembly_order_independent_witness :
    (opened "12").pendingUploads "aaaaaaaa" =
      some (newSession "aaaaaaaa"
        (Num.fin (([ascii "hello ", ascii "world!"].flatten.length : Nat) : Int))) ∧
    ([ascii "hello ", ascii "world!"] ≠ [] ∧
      ∀ c ∈ [ascii "hello ", ascii "world!"], c ≠ []) ∧
    [1, 0].Perm (List.range [ascii "hello ", ascii "world!"].length) ∧
    ((handleData (opened "12") "aaaaaaaa" 1 (some (ascii "world!"))).1.pendingUploads
      "aaaaaaaa").map (fun p => p.writeStream) =
      some { writes := [], ended := false, refused := [] } ∧
    ∃ p : Pending,
      (submitAll (opened "12") "aaaaaaaa"
        [(1, ascii "world!"), (0, ascii "hello ")]).1.pendingUploads "aaaaaaaa" = some p ∧
      p.writeStream = { writes := [ascii "hello ", ascii "world!"], ended := true, refused := [] } ∧
      p.writeStream.writes.flatten = ascii "hello world!" ∧
      (submitAll (opened "12") "aaaaaaaa" [(1, ascii "world!"), (0, ascii "hello ")]).2 =
        [PostResponse.accepted, PostResponse.completing] :=
  ⟨by decide, by decide, by decide, by decide,
    reassembly_order_independent (opened "12") "aaaaaaaa" [ascii "hello ", ascii "world!"]
      [1, 0] (by decide) (by decide) (by decide) (by decide)⟩

/-- C1 fails as stated: declared size 5, chunks `c_0` empty and `c_1 = hello`, chunk 1
submitted first.  That submission already reaches the declared size, so the upload is
finalized with nothing written to the sink; the later submission of chunk 0 finds the
sink ended, its writes fail and the error callback deletes the upload.  The sink never
holds `hello`. -/
theorem reassembly_empty_chunk :
    ([ascii "", ascii "hello"].flatten.length = 5) ∧
    (opened "5").pendingUploads "aaaaaaaa" = some (newSession "aaaaaaaa" (Num.fin 5)) ∧
    (handleData (opened "5") "aaaaaaaa" 1 (some (ascii "hello"))).2 = PostResponse.completing ∧
    ((handleData (opened "5") "aaaaaaaa" 1 (some (ascii "hello"))).1.pendingUploads
      "aaaaaaaa").map (fun p => p.writeStream) =
      some { writes := [], ended := true, refused := [] } ∧
    ((handleData (handleData (opened "5") "aaaaaaaa" 1 (some (ascii "hello"))).1
      "aaaaaaaa" 0 (some (ascii ""))).1.pendingUploads "aaaaaaaa").map (fun p => p.writeStream) =
      some { writes := [], ended := true, refused := [ascii "", ascii "hello"] } ∧
    (submitAll (opened "5") "aaaaaaaa" [(1, ascii "hello"), (0, ascii "")]).2 =
      [PostResponse.completing, PostResponse.writeFailed] ∧
    ((submitAll (opened "5") "aaaaaaaa" [(1, ascii "hello"), (0, ascii "")]).1.pendingUploads
      "aaaaaaaa").isSome = false ∧
    ((submitAll (opened "5") "aaaaaaaa" [(1, ascii "hello"), (0, ascii "")]).1.fileInfo
      "aaaaaaaa").isSome = false := by
  decide

/-! ## Chunk submissions -/

/-- C11: a chunk submission whose id has no entry in `pendingUploads` (an unknown id, or
an upload that completed or was removed) leaves the whole state as it is, so neither
`pendingUploads` nor `fileInfo` changes and no sink is written to; unless the id is a
name that `Object.prototype` defines, the request is only logged. -/
theorem handleData_no_session (s : State) (id : String) (blockID : Nat)
    (payload : Option Bytes) (h : s.pendingUploads id = none) :
    (handleData s id blockID payload).1 = s ∧
    (handleData s id blockID payload).1.pendingUploads = s.pendingUploads ∧
    (handleData s id blockID payload).1.fileInfo = s.fileInfo ∧
    (id ∉ objectPrototypeKeys → (handleData s id blockID payload).2 = PostResponse.ignored) := by
  have key : (handleData s id blockID payload).1 = s := by
    unfold handleData
    by_cases hk : id ∈ objectPrototypeKeys
    · have hj : jsGet s.pendingUploads id = JsLookup.inherited := by simp [jsGet, h, hk]
      rw [hj]
      cases payload <;> rfl
    · rw [jsGet_of_none _ _ h hk]
  refine ⟨key, by rw [key], by rw [key], ?_⟩
  intro hk
  unfold handleData
  rw [jsGet_of_none _ _ h hk]

/-- C11 after an upload has completed: a late chunk for `aaaaaaaa` changes nothing. -/
theorem handleData_no_session_witness :
    afterOneDownload.pendingUploads "aaaaaaaa" = none ∧
    (handleData afterOneDownload "aaaaaaaa" 1 (some (ascii "late"))).1 = afterOneDownload ∧
    (handleData afterOneDownload "aaaaaaaa" 1 (some (ascii "late"))).2 = PostResponse.ignored :=
  ⟨by decide,
    (handleData_no_session afterOneDownload "aaaaaaaa" 1 (some (ascii "late")) (by decide)).1,
    (handleData_no_session afterOneDownload "aaaaaaaa" 1 (some (ascii "late")) (by decide)).2.2.2
      (by decide)⟩

theorem drainLoop_ended : ∀ (fuel : Nat) (p : Pending),
    (drainLoop fuel p).writeStream.ended = p.writeStream.ended := by
  intro fuel
  induction fuel with
  | zero => intro p; rfl
  | succ f ih =>
    intro p
    unfold drainLoop
    split
    · rw [ih]
      simp only [WriteStream.write]
      split <;> rfl
    · rfl

/-- The `end` callback written out: the session after the update of `received`, the
assignment to `chunks` and the drain, and the test that ends the sink. -/
theorem onEnd_eq (p : Pending) (blockID : Nat) (data : Bytes) :
    ∃ p3 : Pending,
      p3 = drain { p with
        received := p.received + data.length
        chunks := setChunk p.chunks blockID data } ∧
      p3.received = p.received + data.length ∧ p3.size = p.size ∧ p3.id = p.id ∧
      p3.chunks = setChunk p.chunks blockID data ∧
      p3.writeStream.ended = p.writeStream.ended ∧
      onEnd p blockID data =
        if (Num.fin p3.received).ge p.size then
          ({ p3 with writeStream := { p3.writeStream with ended := true } }, true)
        else (p3, false) := by
  generalize hp2 : ({ p with
    received := p.received + data.length
    chunks := setChunk p.chunks blockID data } : Pending) = p2
  obtain ⟨h1, h2, h3, h4, _, _⟩ := drainLoop_spec p2.chunks.length p2
  have hsize : (drain p2).size = p.size := by
    unfold drain; rw [h3]; subst hp2; rfl
  refine ⟨drain p2, rfl, ?_, hsize, ?_, ?_, ?_, ?_⟩
  · unfold drain; rw [h2]; subst hp2; rfl
  · unfold drain; rw [h4]; subst hp2; rfl
  · unfold drain; rw [h1]; subst hp2; rfl
  · unfold drain; rw [drainLoop_ended]; subst hp2; rfl
  · unfold onEnd
    simp only [hp2]
    rw [hsize]

/-- C17: a chunk submission to an active session adds exactly the number of payload
bytes to `received`; `writeStream.end()` is called, and the answer left to the finish
callback, if and only if the new `received` is `>=` the declared size (a finish callback
becomes outstanding unless the sink had been ended before); otherwise the answer is a
plain success.  In both cases the session stays in `pendingUploads` with its size. -/
theorem handleData_received (s : State) (id : String) (p : Pending) (blockID : Nat)
    (data : Bytes) (h : s.pendingUploads id = some p) :
    ∃ p1 : Pending,
      (handleData s id blockID (some data)).1.pendingUploads id = some p1 ∧
      p1.received = p.received + data.length ∧ p1.size = p.size ∧
      ((Num.fin p1.received).ge p.size = true →
        (handleData s id blockID (some data)).2 = PostResponse.completing ∧
        p1.writeStream.ended = true ∧
        (handleData s id blockID (some data)).1.closing =
          if p.writeStream.ended then s.closing else p.id :: s.closing) ∧
      ((Num.fin p1.received).ge p.size = false →
        (handleData s id blockID (some data)).2 = PostResponse.accepted ∧
        p1.writeStream.ended = p.writeStream.ended ∧
        (handleData s id blockID (some data)).1.closing = s.closing) := by
  obtain ⟨p3, _, hrec, hsize, _, _, hended, hend⟩ := onEnd_eq p blockID data
  unfold handleData
  rw [jsGet_of_some _ _ p h]
  simp only [hend]
  by_cases hge : (Num.fin p3.received).ge p.size = true
  · rw [if_pos hge]
    refine ⟨{ p3 with writeStream := { p3.writeStream with ended := true } }, ?_, hrec, hsize,
      fun _ => ⟨?_, rfl, ?_⟩, fun hc => ?_⟩
    · simp
    · simp
    · simp
    · rw [hge] at hc
      cases hc
  · have hge2 : (Num.fin p3.received).ge p.size = false := by simpa using hge
    rw [if_neg hge]
    refine ⟨p3, ?_, hrec, hsize, fun hc => ?_, fun _ => ⟨?_, hended, ?_⟩⟩
    · simp
    · rw [hge2] at hc
      cases hc
    · simp
    · simp

/-- C17 on the session opened with declared size 12: six bytes are answered with a plain
success, six more finalize the sink. -/
theorem handleData_received_witness :
    (opened "12").pendingUploads "aaaaaaaa" = some (newSession "aaaaaaaa" (Num.fin 12)) ∧
    (∃ p1 : Pending,
      (handleData (opened "12") "aaaaaaaa" 0 (some (ascii "hello "))).1.pendingUploads
        "aaaaaaaa" = some p1 ∧ p1.received = 6) ∧
    (handleData (opened "12") "aaaaaaaa" 0 (some (ascii "hello "))).2 = PostResponse.accepted ∧
    (handleData (handleData (opened "12") "aaaaaaaa" 0 (some (ascii "hello "))).1
      "aaaaaaaa" 1 (some (ascii "world!"))).2 = PostResponse.completing :=
  ⟨by decide,
    (handleData_received (opened "12") "aaaaaaaa" (newSession "aaaaaaaa" (Num.fin 12)) 0
      (ascii "hello ") (by decide)).imp (fun _ hp => ⟨hp.1, hp.2.1⟩),
    by decide, by decide⟩

/-! ## Finish callbacks of retrievals -/

theorem deleteFile_frame (s : State) (id k : String) (h : k ≠ id) :
    (deleteFile s id).1.fileInfo k = s.fileInfo k ∧ (deleteFile s id).1.files k = s.files k ∧
    (deleteFile s id).1.pendingUploads k = s.pendingUploads k := by
  by_cases hu : jsGet s.fileInfo id = JsLookup.undefined
  · rw [deleteFile_of_undefined s id hu]
    exact ⟨rfl, rfl, rfl⟩
  · rw [deleteFile_of_defined s id hu]
    simp [Function.update_noteq h]

theorem deleteFile_readers (s : State) (id : String) :
    (deleteFile s id).1.readers = s.readers := by
  unfold deleteFile
  split <;> rfl

theorem handleData_frame (s : State) (id : String) (blockID : Nat) (payload : Option Bytes) :
    (handleData s id blockID payload).1.fileInfo = s.fileInfo ∧
    (handleData s id blockID payload).1.files = s.files ∧
    (handleData s id blockID payload).1.readers = s.readers ∧
    ∀ k, k ≠ id → (handleData s id blockID payload).1.pendingUploads k = s.pendingUploads k := by
  unfold handleData
  split
  · exact ⟨rfl, rfl, rfl, fun _ _ => rfl⟩
  · cases payload <;> exact ⟨rfl, rfl, rfl, fun _ _ => rfl⟩
  · cases payload with
    | none => exact ⟨rfl, rfl, rfl, fun _ _ => rfl⟩
    | some data =>
      simp only
      split <;> exact ⟨rfl, rfl, rfl, fun k hk => by simp [Function.update_noteq hk]⟩

theorem dataTurn_readers (s : State) (id : String) (blockID : Nat) (payload : Option Bytes) :
    (dataTurn s id blockID payload).1.readers = s.readers := by
  obtain ⟨_, _, hr, _⟩ := handleData_frame s id blockID payload
  unfold dataTurn
  simp only
  split
  · split
    · simp only [writeError]
      rw [deleteFile_readers, hr]
    · exact hr
  · exact hr

theorem dataTurn_threw (s : State) (id : String) (blockID : Nat) (payload : Option Bytes)
    (h : (dataTurn s id blockID payload).2 = PostResponse.threw) :
    (handleData s id blockID payload).2 = PostResponse.threw := by
  unfold dataTurn at h
  simp only at h
  split at h
  · split at h
    · cases h
    · exact h
  · exact h

/-- A chunk submission for one id touches neither the record, nor the stored object, nor
the session of any other id. -/
theorem dataTurn_frame (s : State) (id : String) (blockID : Nat) (payload : Option Bytes)
    (k : String) (h : k ≠ id) :
    (dataTurn s id blockID payload).1.fileInfo k = s.fileInfo k ∧
    (dataTurn s id blockID payload).1.files k = s.files k ∧
    (dataTurn s id blockID payload).1.pendingUploads k = s.pendingUploads k := by
  obtain ⟨h1, h2, _, h4⟩ := handleData_frame s id blockID payload
  have hplain : (handleData s id blockID payload).1.fileInfo k = s.fileInfo k ∧
      (handleData s id blockID payload).1.files k = s.files k ∧
      (handleData s id blockID payload).1.pendingUploads k = s.pendingUploads k :=
    ⟨by rw [h1], by rw [h2], h4 k h⟩
  unfold dataTurn
  simp only
  split
  · split
    · obtain ⟨d1, d2, d3⟩ := deleteFile_frame (handleData s id blockID (some _)).1 id k h
      simp only [writeError]
      exact ⟨d1.trans hplain.1, d2.trans hplain.2.1, d3.trans hplain.2.2⟩
    · exact hplain
  · exact hplain

theorem decrement_frame (s : State) (id : String) :
    (decrement s id).files = s.files ∧ (decrement s id).pendingUploads = s.pendingUploads ∧
    (decrement s id).readers = s.readers ∧
    ∀ k, s.fileInfo k ≠ none → (decrement s id).fileInfo k ≠ none := by
  unfold decrement
  split
  · refine ⟨rfl, rfl, rfl, ?_⟩
    intro k hk
    by_cases hkid : k = id
    · subst hkid; simp
    · simpa [Function.update_noteq hkid] using hk
  · exact ⟨rfl, rfl, rfl, fun _ hk => hk⟩

theorem sendFileID_frame (s : State) (id : String) :
    (sendFileID s id).1.files = s.files ∧
    (sendFileID s id).1.pendingUploads = s.pendingUploads ∧
    (sendFileID s id).1.fileInfo = s.fileInfo ∧
    s.readers <:+ (sendFileID s id).1.readers := by
  unfold sendFileID
  split
  · exact ⟨rfl, rfl, rfl, List.suffix_refl _⟩
  · split
    · exact ⟨rfl, rfl, rfl, List.suffix_cons _ _⟩
    · exact ⟨rfl, rfl, rfl, List.suffix_refl _⟩

/-- A GET request removes no record, no stored object and no session, and no `finish`
listener that is waiting. -/
theorem handleGET_frame (s : State) (url : String) :
    (handleGET s url).1.files = s.files ∧
    (handleGET s url).1.pendingUploads = s.pendingUploads ∧
    s.readers <:+ (handleGET s url).1.readers ∧
    ∀ k, s.fileInfo k ≠ none → (handleGET s url).1.fileInfo k ≠ none := by
  have hs : (s.files = s.files ∧ s.pendingUploads = s.pendingUploads ∧
      s.readers <:+ s.readers ∧ ∀ k, s.fileInfo k ≠ none → s.fileInfo k ≠ none) :=
    ⟨rfl, rfl, List.suffix_refl _, fun _ hk => hk⟩
  unfold handleGET
  split
  · exact hs
  · split
    · exact hs
    · simp only
      obtain ⟨f1, f2, f3, f4⟩ := sendFileID_frame s (substr1 url)
      split
      · exact hs
      · split
        · exact ⟨f1, f2, f4, fun k hk => by rw [f3]; exact hk⟩
        · obtain ⟨d1, d2, d3, d4⟩ := decrement_frame (sendFileID s (substr1 url)).1 (substr1 url)
          exact ⟨d1.trans f1, d2.trans f2, by rw [d3]; exact f4,
            fun k hk => d4 k (by rw [f3]; exact hk)⟩

/-- No turn of the event loop calls a `finish` listener of a read stream: the listeners
that are waiting before a turn are still waiting after it. -/
theorem step_readers (s s1 : State) (e : Event) (hs : step s e = some s1) :
    s.readers <:+ s1.readers := by
  cases e with
  | create a b c rand fuel =>
    simp only [step, Option.map_eq_some'] at hs
    obtain ⟨r, hr, rfl⟩ := hs
    unfold handleNew at hr
    simp only at hr
    split at hr
    · split at hr
      · cases hr
      · cases hr
        exact List.suffix_refl _
    · cases hr
      exact List.suffix_refl _
  | data id blockID payload =>
    simp only [step] at hs
    split at hs
    · cases hs
    · cases hs
      rw [dataTurn_readers]
  | get url =>
    simp only [step] at hs
    split at hs
    · cases hs
    · cases hs
      exact (handleGET_frame s url).2.2.1
  | sinkFinish id =>
    simp only [step] at hs
    split at hs
    · cases hs
      exact List.suffix_refl _
    · cases hs
  | timer id =>
    simp only [step] at hs
    split at hs
    · cases hs
      rw [deleteFile_readers]
    · cases hs

/-- A turn other than the auto-delete timer of `id` keeps the record of an uploaded file
`id` (registered, stored, its session closed). -/
theorem step_keeps_record (s s1 : State) (id : String) (e : Event)
    (hreg : s.fileInfo id ≠ none) (hfile : s.files id = true)
    (hpend : s.pendingUploads id = none) (he : e ≠ Event.timer id)
    (hs : step s e = some s1) :
    s1.fileInfo id ≠ none ∧ s1.files id = true ∧ s1.pendingUploads id = none := by
  cases e with
  | create a b c rand fuel =>
    simp only [step, Option.map_eq_some'] at hs
    obtain ⟨r, hr, rfl⟩ := hs
    unfold handleNew at hr
    simp only at hr
    split at hr
    · split at hr
      · cases hr
      · rename_i g hg
        cases hr
        have hfree := (jsGet_undefined _ _ (generateUniqueID_undefined _ _ _ _ g hg)).1
        have hne : id ≠ g.1 := by
          intro hc
          rw [← hc] at hfree
          exact hreg hfree
        simp only [Function.update_noteq hne]
        exact ⟨hreg, hfile, hpend⟩
    · cases hr
      exact ⟨hreg, hfile, hpend⟩
  | data id1 blockID payload =>
    simp only [step] at hs
    split at hs
    · cases hs
    · cases hs
      by_cases hid : id = id1
      · subst hid
        rw [dataTurn_gone s id blockID payload hpend]
        exact ⟨hreg, hfile, hpend⟩
      · obtain ⟨h1, h2, h3⟩ := dataTurn_frame s id1 blockID payload id hid
        rw [h1, h2, h3]
        exact ⟨hreg, hfile, hpend⟩
  | get url =>
    simp only [step] at hs
    split at hs
    · cases hs
    · cases hs
      obtain ⟨h1, h2, _, h4⟩ := handleGET_frame s url
      rw [h1, h2]
      exact ⟨h4 id hreg, hfile, hpend⟩
  | sinkFinish id1 =>
    simp only [step] at hs
    split at hs
    · cases hs
      refine ⟨hreg, hfile, ?_⟩
      simp only [sinkFinish]
      by_cases hid : id = id1
      · subst hid; simp
      · rw [Function.update_noteq hid]; exact hpend
    · cases hs
  | timer id1 =>
    simp only [step] at hs
    split at hs
    · cases hs
      have hid : id ≠ id1 := by
        intro hc
        subst hc
        exact he rfl
      obtain ⟨h1, h2, h3⟩ := deleteFile_frame { s with timers := s.timers.erase id1 } id1 id hid
      rw [h1, h2, h3]
      exact ⟨hreg, hfile, hpend⟩
    · cases hs

theorem run_keeps_record (id : String) : ∀ (es : List Event) (s s1 : State),
    s.fileInfo id ≠ none → s.files id = true → s.pendingUploads id = none →
    (∀ e ∈ es, e ≠ Event.timer id) → run s es = some s1 →
    s1.fileInfo id ≠ none ∧ s1.files id = true ∧ s1.pendingUploads id = none ∧
    s.readers <:+ s1.readers := by
  intro es
  induction es with
  | nil =>
    intro s s1 h1 h2 h3 _ hr
    cases hr
    exact ⟨h1, h2, h3, List.suffix_refl _⟩
  | cons e es ih =>
    intro s s1 h1 h2 h3 hne hr
    unfold run at hr
    cases he : step s e with
    | none => rw [he] at hr; cases hr
    | some s2 =>
      rw [he] at hr
      obtain ⟨k1, k2, k3⟩ := step_keeps_record s s2 id e h1 h2 h3
        (hne e (List.mem_cons_self _ _)) he
      obtain ⟨r1, r2, r3, r4⟩ := ih s2 s1 k1 k2 k3
        (fun x hx => hne x (List.mem_cons_of_mem _ hx)) hr
      exact ⟨r1, r2, r3, (step_readers s s2 e he).trans r4⟩

theorem handleGET_registered (s : State) (id : String) (h0 : id ≠ "") (hdot : '.' ∉ id.data)
    (hreg : s.fileInfo id ≠ none) (hf : s.files id = true) :
    (handleGET s ("/" ++ id)).2 = Response.served id := by
  obtain ⟨r, hr⟩ := Option.ne_none_iff_exists'.mp hreg
  rw [handleGET_served s id r h0 hdot hr hf]

/-- C13 on the code: a file uploaded with allowance `"1"` and retrieved once.  The
counter observed right after the request's decrement is 0 and the `finish` listener of
the request is registered.  Whatever turns of the event loop follow, short of the
auto-delete timer of the file, the listener is still waiting, uncalled, the record is
still registered and a further request is served: the end of the transfer does not
remove the record. -/
theorem exhausted_record_stays :
    run State.init oneDownloadTrace = some afterOneDownload ∧
    afterOneDownload.fileInfo "aaaaaaaa" =
      some { filename := some "f.txt", dCount := Num.fin 0 } ∧
    afterOneDownload.readers = ["aaaaaaaa"] ∧
    ∀ (es : List Event) (s1 : State), (∀ e ∈ es, e ≠ Event.timer "aaaaaaaa") →
      run afterOneDownload es = some s1 →
      "aaaaaaaa" ∈ s1.readers ∧ s1.fileInfo "aaaaaaaa" ≠ none ∧
      (handleGET s1 "/aaaaaaaa").2 = Response.served "aaaaaaaa" := by
  refine ⟨rfl, by decide, by decide, ?_⟩
  intro es s1 hne hr
  obtain ⟨h1, h2, _, h4⟩ := run_keeps_record "aaaaaaaa" es afterOneDownload s1 (by decide)
    (by decide) (by decide) hne hr
  refine ⟨?_, h1, handleGET_registered s1 "aaaaaaaa" (by decide) (by decide) h1 h2⟩
  obtain ⟨t, ht⟩ := h4
  rw [← ht]
  exact List.mem_append_right _ (by decide)

/-- C13 at a concrete continuation: after the exhausting retrieval, a request for another
name and the creation of another upload, the listener is still waiting, the record of
`aaaaaaaa` is still registered and the file is served. -/
theorem exhausted_record_stays_witness :
    run afterOneDownload otherTurns = some afterOtherTurns ∧
    "aaaaaaaa" ∈ afterOtherTurns.readers ∧ afterOtherTurns.fileInfo "aaaaaaaa" ≠ none ∧
    (handleGET afterOtherTurns "/aaaaaaaa").2 = Response.served "aaaaaaaa" :=
  ⟨rfl, exhausted_record_stays.2.2.2 otherTurns afterOtherTurns
    (by intro e he
        simp only [otherTurns, List.mem_cons, List.mem_singleton, List.not_mem_nil,
          or_false] at he
        rcases he with rfl | rfl <;> simp) rfl⟩

/-- The body of the listener has no guard: run on a state without the record, its read
of `fileInfo[id].dCount` throws. -/
theorem readFinish_unguarded (s : State) (id : String) (h : s.fileInfo id = none)
    (hk : id ∉ objectPrototypeKeys) : readFinish s id = none := by
  unfold readFinish
  rw [jsGet_of_none _ _ h hk]

/-- C19: no turn of the event loop calls a `finish` listener that `sendFileID` registered
(a read stream does not emit `finish`): the listeners waiting before a turn, or before
any sequence of turns, are still waiting after it, deletions by the timer included; and
a turn that ends in an exception is a chunk submission or a retrieval request whose
handler throws, never a `finish` listener reading a missing record.  So the read of
`fileInfo[id].dCount` in the listener is never executed, on a missing record or
otherwise. -/
theorem finish_listener_never_called :
    (∀ (s s1 : State) (e : Event), step s e = some s1 → s.readers <:+ s1.readers) ∧
    (∀ (es : List Event) (s s1 : State), run s es = some s1 → s.readers <:+ s1.readers) ∧
    (∀ (s : State) (e : Event), step s e = none →
      (∃ a b c rand fuel, e = Event.create a b c rand fuel ∧ handleNew s a b c rand fuel = none) ∨
      (∃ id blockID payload, e = Event.data id blockID payload ∧
        (handleData s id blockID payload).2 = PostResponse.threw) ∨
      (∃ url, e = Event.get url ∧ (handleGET s url).2 = Response.threw) ∨
      (∃ id, e = Event.sinkFinish id ∧ id ∉ s.closing) ∨
      (∃ id, e = Event.timer id ∧ id ∉ s.timers)) := by
  refine ⟨step_readers, ?_, ?_⟩
  · intro es
    induction es with
    | nil =>
      intro s s1 hr
      cases hr
      exact List.suffix_refl _
    | cons e es ih =>
      intro s s1 hr
      unfold run at hr
      cases he : step s e with
      | none => rw [he] at hr; cases hr
      | some s2 =>
        rw [he] at hr
        exact (step_readers s s2 e he).trans (ih s2 s1 hr)
  · intro s e hs
    cases e with
    | create a b c rand fuel =>
      simp only [step, Option.map_eq_none'] at hs
      exact Or.inl ⟨a, b, c, rand, fuel, rfl, hs⟩
    | data id blockID payload =>
      simp only [step] at hs
      split at hs
      · rename_i ht
        refine Or.inr (Or.inl ⟨id, blockID, payload, rfl, ?_⟩)
        exact dataTurn_threw s id blockID payload ht
      · cases hs
    | get url =>
      simp only [step] at hs
      split at hs
      · rename_i ht
        exact Or.inr (Or.inr (Or.inl ⟨url, rfl, ht⟩))
      · cases hs
    | sinkFinish id =>
      simp only [step] at hs
      split at hs
      · cases hs
      · rename_i ht
        exact Or.inr (Or.inr (Or.inr (Or.inl ⟨id, rfl, ht⟩)))
    | timer id =>
      simp only [step] at hs
      split at hs
      · cases hs
      · rename_i ht
        exact Or.inr (Or.inr (Or.inr (Or.inr ⟨id, rfl, ht⟩)))

/-- C19 on two overlapping retrievals of a file uploaded with allowance `"2"` followed by
the auto-delete timer firing during the transfers: the record is deleted, and the two
listeners registered by the requests are still waiting afterwards, uncalled. -/
theorem finish_listener_never_called_witness :
    run afterTwoRequests [Event.timer "aaaaaaaa"] = some afterTimer ∧
    afterTwoRequests.readers = ["aaaaaaaa", "aaaaaaaa"] ∧
    afterTimer.fileInfo "aaaaaaaa" = none ∧
    afterTwoRequests.readers <:+ afterTimer.readers :=
  ⟨rfl, by decide, by decide,
    finish_listener_never_called.2.1 [Event.timer "aaaaaaaa"] afterTwoRequests afterTimer rfl⟩

/-! ## Registry and sessions -/

theorem sessionsRegistered_congr (s s1 : State) (h : SessionsRegistered s)
    (hf : s1.fileInfo = s.fileInfo) (hp : s1.pendingUploads = s.pendingUploads) :
    SessionsRegistered s1 := by
  intro k hk
  rw [hf]
  rw [hp] at hk
  exact h k hk

theorem deleteFile_sessionsRegistered (s : State) (id : String) (h : SessionsRegistered s) :
    SessionsRegistered (deleteFile s id).1 := by
  by_cases hu : jsGet s.fileInfo id = JsLookup.undefined
  · rw [deleteFile_of_undefined s id hu]
    exact h
  · rw [deleteFile_of_defined s id hu]
    intro k hk
    by_cases hkid : k = id
    · subst hkid
      simp at hk
    · simp only [Function.update_noteq hkid] at hk ⊢
      exact h k hk

theorem decrement_sessionsRegistered (s : State) (id : String) (h : SessionsRegistered s) :
    SessionsRegistered (decrement s id) := by
  unfold decrement
  split
  · intro k hk
    by_cases hkid : k = id
    · subst hkid
      simp
    · simp only [Function.update_noteq hkid]
      exact h k hk
  · exact h

theorem handleGET_sessionsRegistered (s : State) (url : String) (h : SessionsRegistered s) :
    SessionsRegistered (handleGET s url).1 := by
  unfold handleGET
  split
  · exact h
  · split
    · exact h
    · have hsend : SessionsRegistered (sendFileID s (substr1 url)).1 := by
        unfold sendFileID
        split
        · exact h
        · split
          · exact sessionsRegistered_congr s _ h rfl rfl
          · exact h
      simp only
      split
      · exact h
      · split
        · exact hsend
        · exact decrement_sessionsRegistered _ _ hsend

theorem readFinish_sessionsRegistered (s : State) (id : String) (r : State × List String)
    (h : SessionsRegistered s) (hr : readFinish s id = some r) : SessionsRegistered r.1 := by
  unfold readFinish at hr
  split at hr
  · cases hr
  · cases hr
    exact h
  · split at hr
    · cases hr
      exact deleteFile_sessionsRegistered s id h
    · cases hr
      exact h

theorem handleData_sessionsRegistered (s : State) (id : String) (blockID : Nat)
    (payload : Option Bytes) (h : SessionsRegistered s) :
    SessionsRegistered (handleData s id blockID payload).1 := by
  unfold handleData
  split
  · exact h
  · cases payload <;> exact h
  · rename_i p hp
    have hown : s.pendingUploads id ≠ none := by
      unfold jsGet at hp
      split at hp
      · rename_i v hv
        rw [hv]; simp
      · split at hp <;> cases hp
    cases payload with
    | none => exact h
    | some data =>
      have key : ∀ s1 : State, s1.fileInfo = s.fileInfo →
          s1.pendingUploads = Function.update s.pendingUploads id
            (some (onEnd p blockID data).1) → SessionsRegistered s1 := by
        intro s1 hf hpu k hk
        rw [hf]
        by_cases hkid : k = id
        · subst hkid
          exact h k hown
        · rw [hpu, Function.update_noteq hkid] at hk
          exact h k hk
      simp only
      split
      · exact key _ rfl rfl
      · exact key _ rfl rfl

theorem dataTurn_sessionsRegistered (s : State) (id : String) (blockID : Nat)
    (payload : Option Bytes) (h : SessionsRegistered s) :
    SessionsRegistered (dataTurn s id blockID payload).1 := by
  have hd := handleData_sessionsRegistered s id blockID payload h
  unfold dataTurn
  simp only
  split
  · split
    · exact deleteFile_sessionsRegistered _ id hd
    · exact hd
  · exact hd

theorem handleNew_sessionsRegistered (s : State) (xFilesize xFilename xDcount : Option String)
    (rand : Nat → Draw) (fuel : Nat) (r : State × PostResponse) (h : SessionsRegistered s)
    (hr : handleNew s xFilesize xFilename xDcount rand fuel = some r) :
    SessionsRegistered r.1 := by
  unfold handleNew at hr
  simp only at hr
  split at hr
  · split at hr
    · cases hr
    · cases hr
      intro k hk
      rename_i g _
      by_cases hkid : k = g.1
      · subst hkid
        simp
      · simp only [Function.update_noteq hkid] at hk ⊢
        exact h k hk
  · cases hr
    exact h

theorem sinkFinish_sessionsRegistered (s : State) (id : String) (h : SessionsRegistered s) :
    SessionsRegistered (sinkFinish s id) := by
  intro k hk
  unfold sinkFinish at hk ⊢
  by_cases hkid : k = id
  · subst hkid
    simp at hk
  · simp only [Function.update_noteq hkid] at hk
    exact h k hk

theorem step_sessionsRegistered (s s1 : State) (e : Event) (h : SessionsRegistered s)
    (hs : step s e = some s1) : SessionsRegistered s1 := by
  cases e with
  | create a b c rand fuel =>
    simp only [step, Option.map_eq_some'] at hs
    obtain ⟨r, hr, rfl⟩ := hs
    exact handleNew_sessionsRegistered s a b c rand fuel r h hr
  | data id blockID payload =>
    simp only [step] at hs
    split at hs
    · cases hs
    · cases hs
      exact dataTurn_sessionsRegistered s id blockID payload h
  | get url =>
    simp only [step] at hs
    split at hs
    · cases hs
    · cases hs
      exact handleGET_sessionsRegistered s url h
  | sinkFinish id =>
    simp only [step] at hs
    split at hs
    · cases hs
      exact sinkFinish_sessionsRegistered { s with closing := s.closing.erase id } id
        (sessionsRegistered_congr s _ h rfl rfl)
    · cases hs
  | timer id =>
    simp only [step] at hs
    split at hs
    · cases hs
      exact deleteFile_sessionsRegistered { s with timers := s.timers.erase id } id
        (sessionsRegistered_congr s _ h rfl rfl)
    · cases hs

theorem reachable_sessionsRegistered (s : State) (h : Reachable s) : SessionsRegistered s := by
  induction h with
  | init => intro k hk; exact absurd rfl hk
  | step e _ hs ih => exact step_sessionsRegistered _ _ e ih hs

/-- C18: in every reachable state (any sequence of session creations, chunk submissions
with the error callbacks of their failed writes, sink-finish callbacks, retrievals and
timer deletions) every id that has an entry in `pendingUploads` has an entry in
`fileInfo`; every turn of the event loop keeps this property, and so do a call of
`deleteFile` with any id, the body of the stream-finish listener of a retrieval (which
no turn calls) run at any moment, and a chunk submission whatever its answer, the
deletion by the error callback of a failed write included. -/
theorem sessions_registered :
    (∀ s : State, Reachable s → ∀ k, s.pendingUploads k ≠ none → s.fileInfo k ≠ none) ∧
    (∀ (s s1 : State) (e : Event), SessionsRegistered s → step s e = some s1 →
      SessionsRegistered s1) ∧
    (∀ (s : State) (id : String), SessionsRegistered s →
      SessionsRegistered (deleteFile s id).1) ∧
    (∀ (s : State) (id : String) (r : State × List String), SessionsRegistered s →
      readFinish s id = some r → SessionsRegistered r.1) ∧
    (∀ (s : State) (id : String) (blockID : Nat) (payload : Option Bytes),
      SessionsRegistered s → SessionsRegistered (dataTurn s id blockID payload).1 ∧
        SessionsRegistered (writeError s id).1) :=
  ⟨reachable_sessionsRegistered, step_sessionsRegistered, deleteFile_sessionsRegistered,
    fun s id r h hr => readFinish_sessionsRegistered s id r h hr,
    fun s id blockID payload h => ⟨dataTurn_sessionsRegistered s id blockID payload h,
      deleteFile_sessionsRegistered s id h⟩⟩

theorem reachable_opened (xFilesize : String) (h : (parseInt (some xFilesize)).isNaN = false) :
    Reachable (opened xFilesize) := by
  refine Reachable.step (Event.create (some xFilesize) (some "f.txt") (some "2") zeros 1)
    Reachable.init ?_
  simp only [step, opened, handleNew, h]
  rfl

/-- C18 on the state after `POST /new`: the session `aaaaaaaa` has its FileRecord. -/
theorem sessions_registered_witness :
    Reachable (opened "12") ∧ (opened "12").pendingUploads "aaaaaaaa" ≠ none ∧
    (opened "12").fileInfo "aaaaaaaa" ≠ none :=
  ⟨reachable_opened "12" (by decide), by decide,
    sessions_registered.1 (opened "12") (reachable_opened "12" (by decide)) "aaaaaaaa"
      (by decide)⟩

/-- C14: in a reachable state, `POST /new` whose `x-filesize` parses to a number (the
declared size) and whose `generateUniqueID` returns the id `g.1` answers with that id;
the id had neither a FileRecord nor a session before; afterwards it has the FileRecord
with `dCount = parseDCount(x-dcount)` and the session with `received = 0`,
`nextChunk = 0`, an empty chunk buffer and `size` the declared size; the records and
sessions of all other ids are unchanged.  When `x-filesize` is missing or does not
parse to a number, nothing is created and the answer is a failure. -/
theorem handleNew_creates (s : State) (hs : Reachable s)
    (xFilesize xFilename xDcount : Option String) (rand : Nat → Draw) (fuel : Nat) :
    ((parseInt xFilesize).isNaN = false → ∀ g : String × Nat,
      generateUniqueID s.fileInfo rand fuel 0 = some g →
      ∃ s1 : State,
        handleNew s xFilesize xFilename xDcount rand fuel =
          some (s1, PostResponse.created g.1) ∧
        s.fileInfo g.1 = none ∧ s.pendingUploads g.1 = none ∧
        s1.fileInfo g.1 = some { filename := xFilename, dCount := parseDCount xDcount } ∧
        s1.pendingUploads g.1 = some (newSession g.1 (parseInt xFilesize)) ∧
        ∀ k, k ≠ g.1 →
          s1.fileInfo k = s.fileInfo k ∧ s1.pendingUploads k = s.pendingUploads k) ∧
    ((parseInt xFilesize).isNaN = true →
      handleNew s xFilesize xFilename xDcount rand fuel = some (s, PostResponse.failure)) ∧
    (parseInt none).isNaN = true ∧
    (∀ t : String, (∀ c, leadingChar t = some c → isDecimalDigit c = false) →
      (parseInt (some t)).isNaN = true) := by
  refine ⟨?_, ?_, by decide, ?_⟩
  · intro hnum g hg
    have hfresh := (jsGet_undefined _ _ (generateUniqueID_undefined s.fileInfo rand fuel 0 g hg)).1
    have hnosession : s.pendingUploads g.1 = none := by
      by_contra hc
      exact reachable_sessionsRegistered s hs g.1 hc hfresh
    refine ⟨{ s with
        files := Function.update s.files g.1 true
        pendingUploads := Function.update s.pendingUploads g.1
          (some (newSession g.1 (parseInt xFilesize)))
        fileInfo := Function.update s.fileInfo g.1
          (some { filename := xFilename, dCount := parseDCount xDcount }) },
      ?_, hfresh, hnosession, ?_, ?_, ?_⟩
    · simp only [handleNew, hnum, hg]
      rfl
    · simp
    · simp
    · intro k hk
      simp [Function.update_noteq hk]
  · intro hnan
    simp [handleNew, hnan]
  · intro t ht
    simp only [parseInt, parseIntStr_of_not_digit t ht]
    rfl

/-- C14 on the start-up state with declared size `"12"`, allowance `"2"` and a source
that draws zeros: the session `aaaaaaaa` is created with size 12 and counter 2; and
without `x-filesize` the answer is a failure. -/
theorem handleNew_creates_witness :
    Reachable State.init ∧
    (parseInt (some "12")).isNaN = false ∧
    generateUniqueID State.init.fileInfo zeros 1 0 = some ("aaaaaaaa", 16) ∧
    (∃ s1 : State,
      handleNew State.init (some "12") (some "f.txt") (some "2") zeros 1 =
        some (s1, PostResponse.created "aaaaaaaa") ∧
      s1.fileInfo "aaaaaaaa" = some { filename := some "f.txt", dCount := Num.fin 2 } ∧
      s1.pendingUploads "aaaaaaaa" = some (newSession "aaaaaaaa" (Num.fin 12))) ∧
    handleNew State.init none (some "f.txt") (some "2") zeros 1 =
      some (State.init, PostResponse.failure) :=
  ⟨Reachable.init, by decide, by decide,
    ((handleNew_creates State.init Reachable.init (some "12") (some "f.txt") (some "2") zeros
      1).1 (by decide) ("aaaaaaaa", 16) (by decide)).imp
      (fun _ h => ⟨h.1, h.2.2.2.1, h.2.2.2.2.1⟩),
    (handleNew_creates State.init Reachable.init none (some "f.txt") (some "2") zeros 1).2.1
      (by decide)⟩

/-! ## The sink between submissions -/

theorem write_issued (w : WriteStream) (c : Bytes) (h : w.ended = false → w.refused = []) :
    (w.write c).issued = w.issued ++ [c] ∧
    ((w.write c).ended = false → (w.write c).refused = []) := by
  unfold WriteStream.write WriteStream.issued
  cases he : w.ended with
  | true => simp
  | false => simp [h he]

/-- The drain loop issues one write per index it passes, in order, each with the chunk
the array holds at that index, and it only passes indices that hold a chunk. -/
theorem drainLoop_issued : ∀ (fuel : Nat) (p : Pending),
    (p.writeStream.ended = false → p.writeStream.refused = []) →
    ((drainLoop fuel p).writeStream.ended = false → (drainLoop fuel p).writeStream.refused = []) ∧
    (drainLoop fuel p).writeStream.issued = p.writeStream.issued ++
      (List.range' p.nextChunk ((drainLoop fuel p).nextChunk - p.nextChunk)).map
        (fun j => (getChunk p.chunks j).getD []) ∧
    ∀ j, p.nextChunk ≤ j → j < (drainLoop fuel p).nextChunk → getChunk p.chunks j ≠ none := by
  intro fuel
  induction fuel with
  | zero =>
    intro p h
    refine ⟨h, by simp [drainLoop], ?_⟩
    intro j h1 h2
    simp only [drainLoop] at h2
    omega
  | succ f ih =>
    intro p h
    unfold drainLoop
    split
    · rename_i c hc
      obtain ⟨hw1, hw2⟩ := write_issued p.writeStream c h
      obtain ⟨i1, i2, i3⟩ := ih
        { p with writeStream := p.writeStream.write c, nextChunk := p.nextChunk + 1 } hw2
      obtain ⟨_, _, _, _, hmono, _⟩ := drainLoop_spec f
        { p with writeStream := p.writeStream.write c, nextChunk := p.nextChunk + 1 }
      simp only at i1 i2 i3 hmono
      refine ⟨i1, ?_, ?_⟩
      · rw [i2, hw1]
        obtain ⟨d, hd⟩ : ∃ d, (drainLoop f
            { p with writeStream := p.writeStream.write c,
                     nextChunk := p.nextChunk + 1 }).nextChunk - p.nextChunk = d + 1 :=
          ⟨_, (Nat.succ_pred (by omega)).symm⟩
        rw [hd, List.range'_succ, List.map_cons, hc]
        have : (drainLoop f
            { p with writeStream := p.writeStream.write c,
                     nextChunk := p.nextChunk + 1 }).nextChunk - (p.nextChunk + 1) = d := by
          omega
        rw [this]
        simp
      · intro j h1 h2
        rcases Nat.eq_or_lt_of_le h1 with h0 | h0
        · rw [← h0, hc]; simp
        · exact i3 j h0 h2
    · refine ⟨h, by simp, ?_⟩
      intro j h1 h2
      omega

theorem sessionOk_newSession (id : String) (size : Num) : SessionOk (newSession id size) where
  count := rfl
  whileOpen := fun _ => rfl
  kept := by intro j hj; simp [newSession] at hj
  gap := rfl

/-- One chunk submission keeps `SessionOk`; `nextChunk` does not decrease, the writes
issued are extended by one write per index passed, each with the chunk the array holds
there, and the array changes at the submitted index only. -/
theorem onEnd_ok (p : Pending) (k : Nat) (d : Bytes) (h : SessionOk p) :
    SessionOk (onEnd p k d).1 ∧ p.nextChunk ≤ (onEnd p k d).1.nextChunk ∧
    (onEnd p k d).1.writeStream.issued = p.writeStream.issued ++
      (List.range' p.nextChunk ((onEnd p k d).1.nextChunk - p.nextChunk)).map
        (fun j => (getChunk (onEnd p k d).1.chunks j).getD []) ∧
    ∀ j, getChunk (onEnd p k d).1.chunks j = if j = k then some d else getChunk p.chunks j := by
  generalize hp2 : ({ p with
    received := p.received + d.length
    chunks := setChunk p.chunks k d } : Pending) = p2
  have hopen2 : p2.writeStream.ended = false → p2.writeStream.refused = [] := by
    subst hp2; exact h.whileOpen
  have hnext2 : p2.nextChunk = p.nextChunk := by subst hp2; rfl
  have hiss2 : p2.writeStream.issued = p.writeStream.issued := by subst hp2; rfl
  have hchunks2 : ∀ j, getChunk p2.chunks j = if j = k then some d else getChunk p.chunks j := by
    intro j; subst hp2; exact getChunk_setChunk _ _ _ _
  obtain ⟨h1, _, _, _, hmono, _⟩ := drainLoop_spec p2.chunks.length p2
  obtain ⟨i1, i2, i3⟩ := drainLoop_issued p2.chunks.length p2 hopen2
  have c1 : (drain p2).chunks = p2.chunks := h1
  have c2 : p.nextChunk ≤ (drain p2).nextChunk := by rw [← hnext2]; exact hmono
  have c3 : (drain p2).writeStream.ended = false → (drain p2).writeStream.refused = [] := i1
  have c4 : (drain p2).writeStream.issued = p.writeStream.issued ++
      (List.range' p.nextChunk ((drain p2).nextChunk - p.nextChunk)).map
        (fun j => (getChunk (drain p2).chunks j).getD []) := by
    rw [c1, ← hnext2, ← hiss2]; exact i2
  have c5 : ∀ j, p.nextChunk ≤ j → j < (drain p2).nextChunk →
      getChunk (drain p2).chunks j ≠ none := by
    rw [c1, ← hnext2]; exact i3
  have c6 : ∀ j, getChunk (drain p2).chunks j =
      if j = k then some d else getChunk p.chunks j := by
    rw [c1]; exact hchunks2
  have hok : SessionOk (drain p2) := by
    refine ⟨?_, c3, ?_, drain_exit p2⟩
    · rw [c4, List.length_append, List.length_map, List.length_range', h.count]
      omega
    · intro j hj
      by_cases hlt : j < p.nextChunk
      · rw [c6]
        split
        · simp
        · exact h.kept j hlt
      · exact c5 j (by omega) hj
  unfold onEnd
  simp only [hp2]
  split
  · exact ⟨⟨hok.count, fun hc => by simp at hc, hok.kept, hok.gap⟩, c2, c4, c6⟩
  · exact ⟨hok, c2, c4, c6⟩

/-- The write issued for an index that a submission's drain passes is the chunk the
array holds at that index. -/
theorem onEnd_issued_new (p : Pending) (k : Nat) (d : Bytes) (h : SessionOk p) (j : Nat)
    (h1 : p.nextChunk ≤ j) (h2 : j < (onEnd p k d).1.nextChunk) :
    (onEnd p k d).1.writeStream.issued[j]? = getChunk (onEnd p k d).1.chunks j := by
  obtain ⟨hok, _, hiss, _⟩ := onEnd_ok p k d h
  have hne := hok.kept j h2
  rw [hiss, List.getElem?_append_right (by rw [h.count]; exact h1), h.count,
    List.getElem?_map, List.getElem?_range' _ _ (by omega)]
  have : p.nextChunk + 1 * (j - p.nextChunk) = j := by omega
  rw [this]
  cases hg : getChunk (onEnd p k d).1.chunks j with
  | none => exact absurd hg hne
  | some c => simp [hg]

/-- The writes issued before a submission are not touched by it. -/
theorem onEnd_issued_old (p : Pending) (k : Nat) (d : Bytes) (h : SessionOk p) (j : Nat)
    (h1 : j < p.nextChunk) :
    (onEnd p k d).1.writeStream.issued[j]? = p.writeStream.issued[j]? := by
  obtain ⟨_, _, hiss, _⟩ := onEnd_ok p k d h
  rw [hiss, List.getElem?_append_left (by rw [h.count]; exact h1)]

theorem tracked_newSession (id : String) (size : Num) : Tracked [] (newSession id size) where
  ok := sessionOk_newSession id size
  buffered := by intro j c h; simp [newSession, getChunk] at h
  written := by intro j hj; simp [newSession] at hj
  present := by intro sub h; simp at h

theorem onEnd_tracked (done : List (Nat × Bytes)) (p : Pending) (sub : Nat × Bytes)
    (h : Tracked done p) : Tracked (done ++ [sub]) (onEnd p sub.1 sub.2).1 := by
  obtain ⟨hok, _, _, hch⟩ := onEnd_ok p sub.1 sub.2 h.ok
  have hbuf : ∀ j c, getChunk (onEnd p sub.1 sub.2).1.chunks j = some c →
      (j, c) ∈ done ++ [sub] := by
    intro j c hc
    rw [hch] at hc
    split at hc
    · rename_i hj
      cases hc
      subst hj
      simp
    · exact List.mem_append_left _ (h.buffered j c hc)
  refine ⟨hok, hbuf, ?_, ?_⟩
  · intro j hj
    by_cases hlt : j < p.nextChunk
    · obtain ⟨c, hc1, hc2⟩ := h.written j hlt
      exact ⟨c, by rw [onEnd_issued_old p _ _ h.ok j hlt]; exact hc1,
        List.mem_append_left _ hc2⟩
    · have hnew := onEnd_issued_new p sub.1 sub.2 h.ok j (by omega) hj
      cases hg : getChunk (onEnd p sub.1 sub.2).1.chunks j with
      | none => exact absurd hg (hok.kept j hj)
      | some c => exact ⟨c, by rw [hnew, hg], hbuf j c hg⟩
  · intro x hx
    rw [hch]
    split
    · simp
    · rcases List.mem_append.mp hx with hx | hx
      · exact h.present x hx
      · rename_i hne
        simp only [List.mem_singleton] at hx
        subst hx
        exact absurd rfl hne

theorem submitChunks_tracked : ∀ (subs done : List (Nat × Bytes)) (p : Pending),
    Tracked done p → Tracked (done ++ subs) (submitChunks p subs).1 := by
  intro subs
  induction subs with
  | nil => intro done p h; simpa [submitChunks] using h
  | cons sub rest ih =>
    intro done p h
    have := ih (done ++ [sub]) _ (onEnd_tracked done p sub h)
    simpa [submitChunks] using this

/-- A submission at an index that was already flushed issues no write and leaves
`nextChunk` where it is. -/
theorem onEnd_flushed (p : Pending) (k : Nat) (d : Bytes) (h : SessionOk p)
    (hk : k < p.nextChunk) :
    (onEnd p k d).1.nextChunk = p.nextChunk ∧
    (onEnd p k d).1.writeStream.issued = p.writeStream.issued := by
  obtain ⟨hok, hmono, hiss, hch⟩ := onEnd_ok p k d h
  have hnext : (onEnd p k d).1.nextChunk = p.nextChunk := by
    by_contra hne
    have hlt : p.nextChunk < (onEnd p k d).1.nextChunk := by omega
    have hkept := hok.kept p.nextChunk hlt
    rw [hch, if_neg (by omega), h.gap] at hkept
    exact hkept rfl
  refine ⟨hnext, ?_⟩
  rw [hiss, hnext]
  simp

/-- C15, as amended: after any sequence of chunk submissions to a session, the chunk
buffer holds an entry at every index strictly below `nextChunk` (entries stay in the
buffer after they are flushed) and none at `nextChunk`; and a submission at an
already-flushed index is stored in the buffer, without being written to the sink and
without moving `nextChunk`. -/
theorem buffer_keeps_flushed (id : String) (size : Num) (subs : List (Nat × Bytes)) :
    (∀ j, j < (submitChunks (newSession id size) subs).1.nextChunk →
      getChunk (submitChunks (newSession id size) subs).1.chunks j ≠ none) ∧
    getChunk (submitChunks (newSession id size) subs).1.chunks
      (submitChunks (newSession id size) subs).1.nextChunk = none ∧
    (∀ (k : Nat) (d : Bytes), k < (submitChunks (newSession id size) subs).1.nextChunk →
      getChunk (onEnd (submitChunks (newSession id size) subs).1 k d).1.chunks k = some d ∧
      (onEnd (submitChunks (newSession id size) subs).1 k d).1.nextChunk =
        (submitChunks (newSession id size) subs).1.nextChunk ∧
      (onEnd (submitChunks (newSession id size) subs).1 k d).1.writeStream.issued =
        (submitChunks (newSession id size) subs).1.writeStream.issued) := by
  have ht := submitChunks_tracked subs [] _ (tracked_newSession id size)
  refine ⟨ht.ok.kept, ht.ok.gap, ?_⟩
  intro k d hk
  obtain ⟨_, _, _, hch⟩ := onEnd_ok _ k d ht.ok
  obtain ⟨h1, h2⟩ := onEnd_flushed _ k d ht.ok hk
  exact ⟨by rw [hch, if_pos rfl], h1, h2⟩

/-- C15 on a session with declared size 12 after `world!` at index 1 and `hello ` at
index 0: `nextChunk` is 2, both entries are still in the buffer, and `HELLO ` submitted
again at index 0 replaces the entry there without any new write. -/
theorem buffer_keeps_flushed_witness :
    (submitChunks (newSession "aaaaaaaa" (Num.fin 12))
      [(1, ascii "world!"), (0, ascii "hello ")]).1.nextChunk = 2 ∧
    (0 < 2 ∧ 1 < 2) ∧
    getChunk (submitChunks (newSession "aaaaaaaa" (Num.fin 12))
      [(1, ascii "world!"), (0, ascii "hello ")]).1.chunks 0 ≠ none ∧
    getChunk (onEnd (submitChunks (newSession "aaaaaaaa" (Num.fin 12))
      [(1, ascii "world!"), (0, ascii "hello ")]).1 0 (ascii "HELLO ")).1.chunks 0 =
      some (ascii "HELLO ") :=
  ⟨by decide, by decide,
    (buffer_keeps_flushed "aaaaaaaa" (Num.fin 12) [(1, ascii "world!"), (0, ascii "hello ")]).1
      0 (by decide),
    ((buffer_keeps_flushed "aaaaaaaa" (Num.fin 12)
      [(1, ascii "world!"), (0, ascii "hello ")]).2.2 0 (ascii "HELLO ") (by decide)).1⟩

/-- C15 fails as stated: on the session opened with declared size 12, after chunk 0 =
`hello ` was submitted and flushed, `nextChunk` is 1 and the buffer still holds
`hello ` at index 0; a second submission at index 0 is stored there as well. -/
theorem buffer_retains_flushed_entry :
    ((handleData (opened "12") "aaaaaaaa" 0 (some (ascii "hello "))).1.pendingUploads
      "aaaaaaaa").map (fun p => (p.nextChunk, p.writeStream.writes, getChunk p.chunks 0)) =
      some (1, [ascii "hello "], some (ascii "hello ")) ∧
    ((submitAll (opened "12") "aaaaaaaa"
      [(0, ascii "hello "), (0, ascii "HELLO ")]).1.pendingUploads "aaaaaaaa").map
      (fun p => (p.nextChunk, p.writeStream.writes, getChunk p.chunks 0)) =
      some (1, [ascii "hello "], some (ascii "HELLO ")) := by
  decide

/-- C16: after any sequence of chunk submissions to a session (any order, with repeats),
the `write` calls issued to the sink are as many as `nextChunk`, the call at position
`j` carries a payload that was submitted at index `j` (one write per index
`0, ..., nextChunk - 1`, in this order), no chunk has been submitted at index
`nextChunk`, and a further submission neither decreases `nextChunk` nor changes the
writes already issued. -/
theorem sink_in_order (id : String) (size : Num) (subs : List (Nat × Bytes)) :
    (submitChunks (newSession id size) subs).1.writeStream.issued.length =
      (submitChunks (newSession id size) subs).1.nextChunk ∧
    (∀ j, j < (submitChunks (newSession id size) subs).1.nextChunk →
      ∃ c, (submitChunks (newSession id size) subs).1.writeStream.issued[j]? = some c ∧
        (j, c) ∈ subs) ∧
    (∀ sub ∈ subs, sub.1 ≠ (submitChunks (newSession id size) subs).1.nextChunk) ∧
    (∀ sub : Nat × Bytes,
      (submitChunks (newSession id size) subs).1.nextChunk ≤
        (onEnd (submitChunks (newSession id size) subs).1 sub.1 sub.2).1.nextChunk ∧
      (submitChunks (newSession id size) subs).1.writeStream.issued <+:
        (onEnd (submitChunks (newSession id size) subs).1 sub.1 sub.2).1.writeStream.issued) := by
  have ht := submitChunks_tracked subs [] _ (tracked_newSession id size)
  rw [List.nil_append] at ht
  refine ⟨ht.ok.count, ht.written, ?_, ?_⟩
  · intro sub hsub heq
    have := ht.present sub hsub
    rw [heq] at this
    exact this ht.ok.gap
  · intro sub
    obtain ⟨_, hmono, hiss, _⟩ := onEnd_ok _ sub.1 sub.2 ht.ok
    exact ⟨hmono, by rw [hiss]; exact List.prefix_append _ _⟩

/-- C16 on the submissions `world!` at 1, `hello ` at 0, `again ` at 0: two writes were
issued, `hello ` for index 0 and `world!` for index 1, and `nextChunk` is 2. -/
theorem sink_in_order_witness :
    (submitChunks (newSession "aaaaaaaa" (Num.fin 99))
      [(1, ascii "world!"), (0, ascii "hello "), (0, ascii "again ")]).1.writeStream.issued =
      [ascii "hello ", ascii "world!"] ∧
    (submitChunks (newSession "aaaaaaaa" (Num.fin 99))
      [(1, ascii "world!"), (0, ascii "hello "), (0, ascii "again ")]).1.nextChunk = 2 ∧
    (submitChunks (newSession "aaaaaaaa" (Num.fin 99))
      [(1, ascii "world!"), (0, ascii "hello "), (0, ascii "again ")]).1.writeStream.issued.length =
      (submitChunks (newSession "aaaaaaaa" (Num.fin 99))
        [(1, ascii "world!"), (0, ascii "hello "), (0, ascii "again ")]).1.nextChunk ∧
    ∀ sub ∈ [(1, ascii "world!"), (0, ascii "hello "), (0, ascii "again ")],
      sub.1 ≠ (submitChunks (newSession "aaaaaaaa" (Num.fin 99))
        [(1, ascii "world!"), (0, ascii "hello "), (0, ascii "again ")]).1.nextChunk :=
  ⟨by decide, by decide,
    (sink_in_order "aaaaaaaa" (Num.fin 99)
      [(1, ascii "world!"), (0, ascii "hello "), (0, ascii "again ")]).1,
    (sink_in_order "aaaaaaaa" (Num.fin 99)
      [(1, ascii "world!"), (0, ascii "hello "), (0, ascii "again ")]).2.2.1⟩

/-! ## Duplicate submissions -/

theorem onEnd_lastWins (k : Nat) (b : Bytes) (p : Pending) (sub : Nat × Bytes)
    (h : LastWins k b p) (hsub : sub.1 ≠ k) : LastWins k b (onEnd p sub.1 sub.2).1 := by
  obtain ⟨hok, hmono, _, hch⟩ := onEnd_ok p sub.1 sub.2 h.ok
  have hsame : getChunk (onEnd p sub.1 sub.2).1.chunks k = getChunk p.chunks k := by
    rw [hch, if_neg (fun hc => hsub hc.symm)]
  refine ⟨hok, ?_, ?_⟩
  · intro hle
    rw [hsame]
    exact h.waiting (by omega)
  · intro hlt
    by_cases hold : k < p.nextChunk
    · rw [onEnd_issued_old p _ _ h.ok k hold]
      exact h.flushed hold
    · rw [onEnd_issued_new p _ _ h.ok k (by omega) hlt, hsame]
      exact h.waiting (by omega)

theorem submitChunks_lastWins (k : Nat) (b : Bytes) : ∀ (later : List (Nat × Bytes))
    (p : Pending), LastWins k b p → (∀ sub ∈ later, sub.1 ≠ k) →
    LastWins k b (submitChunks p later).1 := by
  intro later
  induction later with
  | nil => intro p h _; exact h
  | cons sub rest ih =>
    intro p h hne
    exact ih _ (onEnd_lastWins k b p sub h (hne sub (List.mem_cons_self _ _)))
      (fun x hx => hne x (List.mem_cons_of_mem _ hx))

theorem onEnd_sameSink (p q : Pending) (sub : Nat × Bytes) (h : SameSink p q) :
    SameSink (onEnd p sub.1 sub.2).1 (onEnd q sub.1 sub.2).1 := by
  obtain ⟨pok, pmono, piss, pch⟩ := onEnd_ok p sub.1 sub.2 h.left
  obtain ⟨qok, qmono, qiss, qch⟩ := onEnd_ok q sub.1 sub.2 h.right
  have hagree : ∀ j, p.nextChunk ≤ j →
      getChunk (onEnd p sub.1 sub.2).1.chunks j = getChunk (onEnd q sub.1 sub.2).1.chunks j := by
    intro j hj
    rw [pch, qch, h.agree j hj]
  have hnext : (onEnd p sub.1 sub.2).1.nextChunk = (onEnd q sub.1 sub.2).1.nextChunk := by
    have hpq := h.next
    rcases Nat.lt_trichotomy (onEnd p sub.1 sub.2).1.nextChunk
      (onEnd q sub.1 sub.2).1.nextChunk with hlt | heq | hgt
    · have hk := qok.kept _ hlt
      rw [← hagree _ pmono, pok.gap] at hk
      exact absurd rfl hk
    · exact heq
    · have hk := pok.kept _ hgt
      rw [hagree _ (by omega), qok.gap] at hk
      exact absurd rfl hk
  refine ⟨pok, qok, hnext, ?_, ?_⟩
  · rw [piss, qiss, h.issued, ← hnext, ← h.next]
    congr 1
    apply List.map_congr_left
    intro j hj
    rw [List.mem_range'] at hj
    obtain ⟨i, _, rfl⟩ := hj
    rw [hagree _ (by omega)]
  · intro j hj
    exact hagree j (by omega)

theorem submitChunks_sameSink : ∀ (later : List (Nat × Bytes)) (p q : Pending),
    SameSink p q → SameSink (submitChunks p later).1 (submitChunks q later).1 := by
  intro later
  induction later with
  | nil => intro p q h; exact h
  | cons sub rest ih =>
    intro p q h
    exact ih _ _ (onEnd_sameSink p q sub h)

theorem ge_mono (a b : Nat) (x : Num) (h : (Num.fin (a : Int)).ge x = true) (hab : a ≤ b) :
    (Num.fin (b : Int)).ge x = true := by
  cases x <;> simp [Num.ge, Num.lt] at h ⊢
  omega

/-- The drain loop on an open sink refuses nothing, and on an ended sink stores nothing. -/
theorem drainLoop_sink : ∀ (fuel : Nat) (p : Pending),
    (p.writeStream.ended = false →
      (drainLoop fuel p).writeStream.refused = p.writeStream.refused) ∧
    (p.writeStream.ended = true →
      (drainLoop fuel p).writeStream.writes = p.writeStream.writes) := by
  intro fuel
  induction fuel with
  | zero => intro p; exact ⟨fun _ => rfl, fun _ => rfl⟩
  | succ f ih =>
    intro p
    unfold drainLoop
    split
    · rename_i c _
      obtain ⟨i1, i2⟩ := ih
        { p with writeStream := p.writeStream.write c, nextChunk := p.nextChunk + 1 }
      constructor
      · intro he
        rw [i1 (by simp [WriteStream.write, he])]
        simp [WriteStream.write, he]
      · intro he
        rw [i2 (by simp [WriteStream.write, he])]
        simp [WriteStream.write, he]
    · exact ⟨fun _ => rfl, fun _ => rfl⟩

/-- What one chunk submission does to the counters and to the sink of its session. -/
theorem onEnd_sink (p : Pending) (k : Nat) (d : Bytes) :
    (onEnd p k d).1.received = p.received + d.length ∧ (onEnd p k d).1.size = p.size ∧
    ((onEnd p k d).1.writeStream.ended = true ↔
      (p.writeStream.ended = true ∨
        (Num.fin ((p.received + d.length : Nat) : Int)).ge p.size = true)) ∧
    (p.writeStream.ended = false →
      (onEnd p k d).1.writeStream.refused = p.writeStream.refused) ∧
    (p.writeStream.ended = true →
      (onEnd p k d).1.writeStream.writes = p.writeStream.writes) := by
  obtain ⟨p3, hp3, hrec, hsize, _, _, hended, heq⟩ := onEnd_eq p k d
  obtain ⟨s1, s2⟩ := drainLoop_sink (setChunk p.chunks k d).length
    { p with received := p.received + d.length, chunks := setChunk p.chunks k d }
  have r1 : p.writeStream.ended = false → p3.writeStream.refused = p.writeStream.refused := by
    intro he; rw [hp3]; exact s1 he
  have r2 : p.writeStream.ended = true → p3.writeStream.writes = p.writeStream.writes := by
    intro he; rw [hp3]; exact s2 he
  rw [heq]
  by_cases hge : (Num.fin (p3.received : Int)).ge p.size = true
  · rw [if_pos hge]
    rw [hrec] at hge
    exact ⟨hrec, hsize, ⟨fun _ => Or.inr hge, fun _ => rfl⟩, r1, r2⟩
  · rw [if_neg hge]
    rw [hrec] at hge
    exact ⟨hrec, hsize,
      ⟨fun h => Or.inl (hended ▸ h), fun h => h.elim (fun h1 => hended.trans h1)
        (fun h2 => absurd h2 hge)⟩, r1, r2⟩

/-- The writes of a chunk submission that fail: all the writes it issues when the sink
was ended before, none otherwise. -/
theorem failedWrites_eq (p : Pending) (k : Nat) (d : Bytes) (h : SessionOk p) :
    failedWrites p k d =
      if p.writeStream.ended = true then (onEnd p k d).1.nextChunk - p.nextChunk else 0 := by
  obtain ⟨hok, hmono, _, _⟩ := onEnd_ok p k d h
  obtain ⟨_, _, _, s1, s2⟩ := onEnd_sink p k d
  have c1 := hok.count
  have c2 := h.count
  unfold WriteStream.issued at c1 c2
  rw [List.length_append] at c1 c2
  unfold failedWrites
  by_cases he : p.writeStream.ended = true
  · rw [if_pos he]
    rw [s2 he] at c1
    omega
  · rw [if_neg he]
    rw [s1 (by simpa using he)]
    omega

theorem submitChunks_append (xs ys : List (Nat × Bytes)) : ∀ p : Pending,
    (submitChunks p (xs ++ ys)).1 = (submitChunks (submitChunks p xs).1 ys).1 := by
  induction xs with
  | nil => intro p; rfl
  | cons x xs ih => intro p; exact ih _

theorem submitChunks_pair (p : Pending) (k : Nat) (d : Bytes) (rest : List (Nat × Bytes)) :
    (submitChunks p ((k, d) :: rest)).1 = (submitChunks (onEnd p k d).1 rest).1 := rfl

theorem submitChunks_nil (p : Pending) : (submitChunks p []).1 = p := rfl

theorem quiet_append (xs ys : List (Nat × Bytes)) : ∀ p : Pending,
    Quiet p (xs ++ ys) ↔ Quiet p xs ∧ Quiet (submitChunks p xs).1 ys := by
  induction xs with
  | nil => intro p; simp [Quiet, submitChunks]
  | cons x xs ih =>
    intro p
    show (failedWrites p x.1 x.2 = 0 ∧ Quiet (onEnd p x.1 x.2).1 (xs ++ ys)) ↔
      (failedWrites p x.1 x.2 = 0 ∧ Quiet (onEnd p x.1 x.2).1 xs) ∧
        Quiet (submitChunks (onEnd p x.1 x.2).1 xs).1 ys
    rw [ih, and_assoc]

/-- While no write fails, no write is refused. -/
theorem quiet_refused : ∀ (subs : List (Nat × Bytes)) (p : Pending),
    p.writeStream.refused = [] → Quiet p subs →
    (submitChunks p subs).1.writeStream.refused = [] := by
  intro subs
  induction subs with
  | nil => intro p h _; exact h
  | cons sub rest ih =>
    intro p h hq
    refine ih _ ?_ hq.2
    have := hq.1
    unfold failedWrites at this
    rw [h] at this
    exact List.length_eq_zero.mp (by simpa using this)

theorem onEnd_ahead (p q : Pending) (sub : Nat × Bytes) (h : Ahead p q)
    (hq : failedWrites p sub.1 sub.2 = 0) :
    failedWrites q sub.1 sub.2 = 0 ∧ Ahead (onEnd p sub.1 sub.2).1 (onEnd q sub.1 sub.2).1 := by
  have hs := onEnd_sameSink p q sub h.same
  obtain ⟨pr, psz, pe, _, _⟩ := onEnd_sink p sub.1 sub.2
  obtain ⟨qr, qsz, qe, _, _⟩ := onEnd_sink q sub.1 sub.2
  constructor
  · rw [failedWrites_eq q _ _ h.same.right]
    by_cases he : q.writeStream.ended = true
    · rw [if_pos he]
      rw [failedWrites_eq p _ _ h.same.left, if_pos (h.ended he)] at hq
      have h1 := hs.next
      have h2 := h.same.next
      omega
    · rw [if_neg he]
  · refine ⟨hs, psz.trans (h.size.trans qsz.symm), ?_, ?_⟩
    · rw [pr, qr]
      have := h.received
      omega
    · intro he
      rw [qe] at he
      rw [pe]
      rcases he with h1 | h2
      · exact Or.inl (h.ended h1)
      · refine Or.inr ?_
        rw [h.size]
        exact ge_mono _ _ _ h2 (by have := h.received; omega)

theorem submitChunks_ahead : ∀ (later : List (Nat × Bytes)) (p q : Pending),
    Ahead p q → Quiet p later →
    Quiet q later ∧ Ahead (submitChunks p later).1 (submitChunks q later).1 := by
  intro later
  induction later with
  | nil => intro p q h _; exact ⟨trivial, h⟩
  | cons sub rest ih =>
    intro p q h hq
    obtain ⟨h1, h2⟩ := onEnd_ahead p q sub h hq.1
    obtain ⟨h3, h4⟩ := ih _ _ h2 hq.2
    exact ⟨⟨h1, h3⟩, h4⟩

/-- A series of chunk submissions after which the session is gone: a write failed on the
way, its request was answered by the error callback, and the record is gone as well. -/
theorem submitAll_lost (id : String) : ∀ (subs : List (Nat × Bytes)) (s : State)
    (p : Pending), s.pendingUploads id = some p → s.fileInfo id ≠ none →
    (submitAll s id subs).1.pendingUploads id = none →
    PostResponse.writeFailed ∈ (submitAll s id subs).2 ∧
    (submitAll s id subs).1.fileInfo id = none := by
  intro subs
  induction subs with
  | nil =>
    intro s p h _ hn
    simp only [submitAll] at hn
    rw [h] at hn
    cases hn
  | cons sub rest ih =>
    intro s p h hreg hn
    simp only [submitAll] at hn ⊢
    by_cases hf : failedWrites p sub.1 sub.2 = 0
    · obtain ⟨hd1, hd2, _⟩ := handleData_own s id p sub.1 sub.2 h
      rw [dataTurn_quiet s id p sub.1 sub.2 h hf] at hn ⊢
      obtain ⟨i1, i2⟩ := ih _ _ hd1 (by rw [hd2]; exact hreg) hn
      exact ⟨List.mem_cons_of_mem _ i1, i2⟩
    · obtain ⟨g1, g2, g3⟩ := dataTurn_failed s id p sub.1 sub.2 h hreg hf
      rw [submitAll_gone id rest _ g2]
      exact ⟨by rw [g1]; exact List.mem_cons_self _ _, g3⟩

/-- C12, as amended.  A session just opened under `id` receives the chunk submissions
`earlier`, handled one after another.  (1) If index `k` is then submitted with payload
`a` and, while it has still not been flushed, again with payload `b`, and submissions at
other indices follow, then, provided the session is still there, no write has failed,
the buffer holds `b` at `k` as long as `k` is not flushed, and once `k` is flushed the
write stored for index `k` is `b`.  (2) If `k` is submitted again after it was flushed
and the session is still there after the submissions that follow, then it is also there
when the repeated submission is left out, with the same writes stored in the sink and
the same `nextChunk`.  (3) The session is gone after a series of submissions only when a
write was issued after `end`: that request was answered by the error callback of the
write, which deleted the upload, record included. -/
theorem duplicate_chunks (s : State) (id : String) (size : Num)
    (earlier later : List (Nat × Bytes)) (k : Nat)
    (hs : s.pendingUploads id = some (newSession id size)) (hreg : s.fileInfo id ≠ none) :
    (∀ (a b : Bytes) (q1 q : Pending),
      (submitAll s id (earlier ++ [(k, a)])).1.pendingUploads id = some q1 →
      q1.nextChunk ≤ k → (∀ sub ∈ later, sub.1 ≠ k) →
      (submitAll s id (earlier ++ (k, a) :: (k, b) :: later)).1.pendingUploads id = some q →
      q.writeStream.refused = [] ∧
      (q.nextChunk ≤ k → getChunk q.chunks k = some b) ∧
      (k < q.nextChunk → q.writeStream.writes[k]? = some b)) ∧
    (∀ (d : Bytes) (q0 q : Pending),
      (submitAll s id earlier).1.pendingUploads id = some q0 → k < q0.nextChunk →
      (submitAll s id (earlier ++ (k, d) :: later)).1.pendingUploads id = some q →
      ∃ q2 : Pending, (submitAll s id (earlier ++ later)).1.pendingUploads id = some q2 ∧
        q2.writeStream.writes = q.writeStream.writes ∧ q2.nextChunk = q.nextChunk ∧
        q.writeStream.refused = [] ∧ q2.writeStream.refused = []) ∧
    (∀ subs : List (Nat × Bytes), (submitAll s id subs).1.pendingUploads id = none →
      PostResponse.writeFailed ∈ (submitAll s id subs).2 ∧
      (submitAll s id subs).1.fileInfo id = none) := by
  have hp := (submitChunks_tracked earlier [] _ (tracked_newSession id size)).ok
  refine ⟨?_, ?_, fun subs hn => submitAll_lost id subs s _ hs hreg hn⟩
  · intro a b q1 q h1 hk hne hq
    have hQ := submitAll_survives id _ s _ q hs hreg hq
    have hQ1 := submitAll_survives id _ s _ q1 hs hreg h1
    have e1 := (submitAll_own id _ s _ hs hQ1).1
    rw [h1, submitChunks_append, submitChunks_pair, submitChunks_nil] at e1
    have e2 := (submitAll_own id _ s _ hs hQ).1
    rw [hq, submitChunks_append, submitChunks_pair, submitChunks_pair] at e2
    have hq1 : q1 = (onEnd (submitChunks (newSession id size) earlier).1 k a).1 :=
      Option.some.inj e1
    have hqe : q = (submitChunks
        (onEnd (onEnd (submitChunks (newSession id size) earlier).1 k a).1 k b).1 later).1 :=
      Option.some.inj e2
    have href : q.writeStream.refused = [] := by
      have := quiet_refused _ (newSession id size) rfl hQ
      rw [submitChunks_append, submitChunks_pair, submitChunks_pair, ← hqe] at this
      exact this
    rw [hq1] at hk
    obtain ⟨hok1, _, _, _⟩ := onEnd_ok _ k a hp
    obtain ⟨hok2, _, _, hch2⟩ := onEnd_ok _ k b hok1
    have hlw := submitChunks_lastWins k b later _
      (LastWins.mk hok2 (fun _ => by rw [hch2, if_pos rfl])
        (fun hlt => by rw [onEnd_issued_new _ k b hok1 k hk hlt, hch2, if_pos rfl])) hne
    rw [← hqe] at hlw
    refine ⟨href, hlw.waiting, ?_⟩
    intro hlt
    have := hlw.flushed hlt
    unfold WriteStream.issued at this
    rw [href, List.append_nil] at this
    exact this
  · intro d q0 q h0 hk hq
    have hQ := submitAll_survives id _ s _ q hs hreg hq
    have hQ0 := submitAll_survives id _ s _ q0 hs hreg h0
    have e0 := (submitAll_own id _ s _ hs hQ0).1
    rw [h0] at e0
    have hq0 : q0 = (submitChunks (newSession id size) earlier).1 := Option.some.inj e0
    rw [hq0] at hk
    have e2 := (submitAll_own id _ s _ hs hQ).1
    rw [hq, submitChunks_append, submitChunks_pair] at e2
    have hqe : q = (submitChunks (onEnd (submitChunks (newSession id size) earlier).1 k d).1
        later).1 := Option.some.inj e2
    obtain ⟨hQa, hQb1, hQb2⟩ : Quiet (newSession id size) earlier ∧
        failedWrites (submitChunks (newSession id size) earlier).1 k d = 0 ∧
        Quiet (onEnd (submitChunks (newSession id size) earlier).1 k d).1 later :=
      (quiet_append earlier _ _).mp hQ
    obtain ⟨hok1, _, _, hch⟩ := onEnd_ok _ k d hp
    obtain ⟨hnext, hiss⟩ := onEnd_flushed _ k d hp hk
    obtain ⟨r1, r2, r3, _, _⟩ := onEnd_sink (submitChunks (newSession id size) earlier).1 k d
    have hahead : Ahead (onEnd (submitChunks (newSession id size) earlier).1 k d).1
        (submitChunks (newSession id size) earlier).1 :=
      ⟨SameSink.mk hok1 hp hnext hiss (fun j hj => by rw [hch, if_neg (by omega)]), r2,
        by rw [r1]; omega, fun he => r3.mpr (Or.inl he)⟩
    obtain ⟨hQc, hsim⟩ := submitChunks_ahead later _ _ hahead hQb2
    have hQB : Quiet (newSession id size) (earlier ++ later) :=
      (quiet_append earlier later _).mpr ⟨hQa, hQc⟩
    have e3 := (submitAll_own id _ s _ hs hQB).1
    rw [submitChunks_append] at e3
    have href : q.writeStream.refused = [] := by
      have := quiet_refused _ (newSession id size) rfl hQ
      rw [submitChunks_append, submitChunks_pair, ← hqe] at this
      exact this
    have href2 : (submitChunks (submitChunks (newSession id size) earlier).1
        later).1.writeStream.refused = [] := by
      have := quiet_refused _ (newSession id size) rfl hQB
      rw [submitChunks_append] at this
      exact this
    refine ⟨_, e3, ?_, ?_, href, href2⟩
    · have hi := hsim.same.issued
      rw [← hqe] at hi
      unfold WriteStream.issued at hi
      rw [href, href2, List.append_nil, List.append_nil] at hi
      exact hi.symm
    · have hn := hsim.same.next
      rw [← hqe] at hn
      exact hn.symm

/-- C12 on a session opened with declared size 99.  Index 1 is submitted with `a`, then
with `b`, then index 0 arrives: the session is still there and the write stored for
index 1 is `b`.  And after `x` at index 0 was flushed, a second submission `y` at index
0 followed by `z` at index 1 leaves the session there, as `z` at index 1 alone does,
with the same stored writes. -/
theorem duplicate_chunks_witness :
    ((opened "99").pendingUploads "aaaaaaaa" = some (newSession "aaaaaaaa" (Num.fin 99)) ∧
      (opened "99").fileInfo "aaaaaaaa" ≠ none) ∧
    ((submitAll (opened "99") "aaaaaaaa"
        [(1, ascii "a"), (1, ascii "b"), (0, ascii "x")]).1.pendingUploads "aaaaaaaa" =
        some (submitChunks (newSession "aaaaaaaa" (Num.fin 99))
          [(1, ascii "a"), (1, ascii "b"), (0, ascii "x")]).1 ∧
      (submitChunks (newSession "aaaaaaaa" (Num.fin 99))
        [(1, ascii "a"), (1, ascii "b"), (0, ascii "x")]).1.nextChunk = 2 ∧
      (submitChunks (newSession "aaaaaaaa" (Num.fin 99))
        [(1, ascii "a"), (1, ascii "b"), (0, ascii "x")]).1.writeStream.writes[1]? =
        some (ascii "b")) ∧
    ((submitAll (opened "99") "aaaaaaaa"
        [(0, ascii "x"), (0, ascii "y"), (1, ascii "z")]).1.pendingUploads "aaaaaaaa" =
        some (submitChunks (newSession "aaaaaaaa" (Num.fin 99))
          [(0, ascii "x"), (0, ascii "y"), (1, ascii "z")]).1 ∧
      (submitChunks (newSession "aaaaaaaa" (Num.fin 99))
        [(0, ascii "x"), (0, ascii "y"), (1, ascii "z")]).1.writeStream.writes =
        [ascii "x", ascii "z"] ∧
      ∃ q2 : Pending,
        (submitAll (opened "99") "aaaaaaaa"
          ([(0, ascii "x")] ++ [(1, ascii "z")])).1.pendingUploads "aaaaaaaa" = some q2 ∧
        q2.writeStream.writes = (submitChunks (newSession "aaaaaaaa" (Num.fin 99))
          [(0, ascii "x"), (0, ascii "y"), (1, ascii "z")]).1.writeStream.writes ∧
        q2.nextChunk = (submitChunks (newSession "aaaaaaaa" (Num.fin 99))
          [(0, ascii "x"), (0, ascii "y"), (1, ascii "z")]).1.nextChunk ∧
        (submitChunks (newSession "aaaaaaaa" (Num.fin 99))
          [(0, ascii "x"), (0, ascii "y"), (1, ascii "z")]).1.writeStream.refused = [] ∧
        q2.writeStream.refused = []) :=
  ⟨⟨by decide, by decide⟩,
    ⟨by decide, by decide,
      ((duplicate_chunks (opened "99") "aaaaaaaa" (Num.fin 99) [] [(0, ascii "x")] 1
        (by decide) (by decide)).1 (ascii "a") (ascii "b")
        (submitChunks (newSession "aaaaaaaa" (Num.fin 99)) [(1, ascii "a")]).1
        (submitChunks (newSession "aaaaaaaa" (Num.fin 99))
          [(1, ascii "a"), (1, ascii "b"), (0, ascii "x")]).1
        (by decide) (by decide) (by decide) (by decide)).2.2 (by decide)⟩,
    ⟨by decide, by decide,
      (duplicate_chunks (opened "99") "aaaaaaaa" (Num.fin 99) [(0, ascii "x")]
        [(1, ascii "z")] 0 (by decide) (by decide)).2.1 (ascii "y")
        (submitChunks (newSession "aaaaaaaa" (Num.fin 99)) [(0, ascii "x")]).1
        (submitChunks (newSession "aaaaaaaa" (Num.fin 99))
          [(0, ascii "x"), (0, ascii "y"), (1, ascii "z")]).1
        (by decide) (by decide) (by decide)⟩⟩

/-- C12 fails as stated, in both parts, because a repeated payload is counted in
`received`.  (1) Declared size 2: index 1 is submitted with `a` and, still unflushed,
with `b`; that reaches the declared size and the sink is ended with nothing written.
When index 0 arrives next, its write fails and the error callback deletes the upload;
when the finish callback of the sink comes first, the session is removed and the
submission of index 0 is only logged.  Either way `b` is never stored.  (2) Declared
size 3 with chunks `x`, `y`, `z`: when `x` is submitted a second time after it was
flushed, the sink is ended by the submission of `y`, the write of `z` fails and the
upload is deleted, while without the repeated submission `z` is stored. -/
theorem duplicate_ends_early :
    ((submitAll (opened "2") "aaaaaaaa"
      [(1, ascii "a"), (1, ascii "b")]).1.pendingUploads "aaaaaaaa").map
      (fun p => (p.nextChunk, p.writeStream)) =
      some (0, { writes := [], ended := true, refused := [] }) ∧
    (submitAll (opened "2") "aaaaaaaa" [(1, ascii "a"), (1, ascii "b"), (0, ascii "x")]).2 =
      [PostResponse.accepted, PostResponse.completing, PostResponse.writeFailed] ∧
    (((submitAll (opened "2") "aaaaaaaa"
        [(1, ascii "a"), (1, ascii "b"), (0, ascii "x")]).1.pendingUploads "aaaaaaaa").isSome,
      ((submitAll (opened "2") "aaaaaaaa"
        [(1, ascii "a"), (1, ascii "b"), (0, ascii "x")]).1.fileInfo "aaaaaaaa").isSome) =
      (false, false) ∧
    (run (opened "2") [Event.data "aaaaaaaa" 1 (some (ascii "a")),
      Event.data "aaaaaaaa" 1 (some (ascii "b")), Event.sinkFinish "aaaaaaaa"]).map
      (fun s => ((s.pendingUploads "aaaaaaaa").isSome,
        (dataTurn s "aaaaaaaa" 0 (some (ascii "x"))).2)) =
      some (false, PostResponse.ignored) ∧
    (submitAll (opened "3") "aaaaaaaa"
      [(0, ascii "x"), (0, ascii "x"), (1, ascii "y"), (2, ascii "z")]).2 =
      [PostResponse.accepted, PostResponse.accepted, PostResponse.completing,
        PostResponse.writeFailed] ∧
    (((submitAll (opened "3") "aaaaaaaa"
        [(0, ascii "x"), (0, ascii "x"), (1, ascii "y"), (2, ascii "z")]).1.pendingUploads
        "aaaaaaaa").isSome,
      ((submitAll (opened "3") "aaaaaaaa"
        [(0, ascii "x"), (0, ascii "x"), (1, ascii "y"), (2, ascii "z")]).1.fileInfo
        "aaaaaaaa").isSome) = (false, false) ∧
    ((submitAll (opened "3") "aaaaaaaa"
      [(0, ascii "x"), (1, ascii "y"), (2, ascii "z")]).1.pendingUploads
      "aaaaaaaa").map (fun p => p.writeStream) =
      some { writes := [ascii "x", ascii "y", ascii "z"], ended := true, refused := [] } := by
  decide

end Phile
